import Mathlib

/-!
Shallow embedding of the batch sheet-writing core of the repository
(`src/backend/services/sheetService.js` and the batch controller in
`src/unnamed/part_001`, a `sheetController.js`).

JavaScript values that flow through truthiness checks are modelled by the
inductive `JSVal`; machine numbers are modelled as `Int` (the amounts and
status codes involved are small integers, so floating point plays no role
in any property below).  Asynchronous code is modelled by explicit
outcome functions (`Except JsError _`) plus an explicit scheduler for the
concurrency-limited executor.  Remote Google-Sheets calls are abstract
parameters: a function gives the outcome of each remote call, exactly at
the places the source awaits them.
-/

/-- Model of the JavaScript values the receipt fields can hold. -/
inductive JSVal where
  | undefined
  | null
  | str (s : String)
  | num (n : Int)
  | boolean (b : Bool)
deriving DecidableEq, Repr

/-- JavaScript truthiness: `undefined`, `null`, `""`, `0` and `false` are falsy. -/
def truthy : JSVal → Bool
  | .undefined => false
  | .null => false
  | .str s => !(s = "")
  | .num n => !(n = 0)
  | .boolean b => b

/-- JavaScript `a || b` on modelled values. -/
def jsOr (a b : JSVal) : JSVal := if truthy a then a else b

/-- JavaScript `s || d` for a string already known to be a string. -/
def jsOrStr (s d : String) : String := if s = "" then d else s

/-- JavaScript `a || b` where both sides are either a (non-empty) string or
a nullish value, as with `spreadsheetId || SPREADSHEET_ID`. -/
def jsOrOpt (a b : Option String) : Option String :=
  match a with
  | some s => if s = "" then b else some s
  | none => b

/-- JavaScript numeric coercion used by relational operators (`status >= 500`).
`undefined` coerces to NaN, on which every comparison is false. -/
def toNumber : JSVal → Option Int
  | .undefined => none
  | .null => some 0
  | .str s => if s = "" then some 0 else s.toInt?
  | .num n => some n
  | .boolean b => some (if b then 1 else 0)

/-- JavaScript `v >= n` under numeric coercion. -/
def jsGE (v : JSVal) (n : Int) : Bool :=
  match toNumber v with
  | some m => decide (n ≤ m)
  | none => false

/-- JavaScript `v < n` under numeric coercion. -/
def jsLT (v : JSVal) (n : Int) : Bool :=
  match toNumber v with
  | some m => decide (m < n)
  | none => false

/-- Character-list version of `String.startsWith` for the substring test. -/
def leadsWith : List Char → List Char → Bool
  | [], _ => true
  | _ :: _, [] => false
  | a :: as, b :: bs => a == b && leadsWith as bs

/-- Does `pat` occur inside `cs`?  Models `String.prototype.includes`. -/
def hasSubAux (pat : List Char) : List Char → Bool
  | [] => leadsWith pat []
  | c :: rest => leadsWith pat (c :: rest) || hasSubAux pat rest

/-- JavaScript `s.includes(pat)`. -/
def strHasSub (s pat : String) : Bool := hasSubAux pat.toList s.toList

instance {ε : Type u} {α : Type v} [DecidableEq ε] [DecidableEq α] :
    DecidableEq (Except ε α) := fun x y =>
  match x, y with
  | .ok a, .ok b => if h : a = b then .isTrue (by rw [h]) else .isFalse (by simp [h])
  | .ok _, .error _ => .isFalse (by simp)
  | .error _, .ok _ => .isFalse (by simp)
  | .error e, .error e2 =>
    if h : e = e2 then .isTrue (by rw [h]) else .isFalse (by simp [h])

/-- One receipt record as submitted to the batch controller.  Only the four
fields the source ever reads (`date`, `storeName`, `amountInclTax`,
`amountExclTax`) are modelled; an absent field is `JSVal.undefined`. -/
structure Receipt where
  date : JSVal
  storeName : JSVal
  amountInclTax : JSVal
  amountExclTax : JSVal
deriving DecidableEq, Repr

/-- Dynamic field access `receipt[field]` for the fields the source touches. -/
def Receipt.getField (r : Receipt) : String → JSVal
  | "date" => r.date
  | "storeName" => r.storeName
  | "amountInclTax" => r.amountInclTax
  | "amountExclTax" => r.amountExclTax
  | _ => .undefined

/-- Required fields of the batch controller in `src/unnamed/part_001` line 126. -/
def requiredFields : List String := ["date", "storeName", "amountInclTax"]

/-- Fields reported missing for one receipt:
`requiredFields.filter(field => !receipt[field])` (part_001 line 130). -/
def missingFields (r : Receipt) : List String :=
  requiredFields.filter (fun f => !(truthy (r.getField f)))

/-- One entry of the `invalidReceipts` array (part_001 lines 132-135). -/
structure InvalidReceipt where
  index : Nat
  missing : List String
deriving DecidableEq, Repr

/-- The `invalidReceipts` array built by the validation loop
(part_001 lines 127-137). -/
def invalidReceipts (receipts : List Receipt) : List InvalidReceipt :=
  receipts.enum.filterMap (fun p =>
    if (missingFields p.2).isEmpty then none
    else some ⟨p.1, missingFields p.2⟩)

/-- Environment for `getSheetNameFromDate`: `parseVal v` models
`new Date(v)` followed by the `isNaN` check, returning the local
`getFullYear()` and `getMonth() + 1` on a parseable value and `none`
otherwise; `nowYear`/`nowMonth` model `new Date()` at call time. -/
structure DateEnv where
  parseVal : JSVal → Option (Int × Nat)
  nowYear : Int
  nowMonth : Nat

/-- Model of `String(month).padStart(2, '0')` for a month number. -/
def pad2 (m : Nat) : String := if m < 10 then "0" ++ toString m else toString m

/-- Sheet-name formatting `` `${year}_${String(month).padStart(2,'0')}` ``. -/
def fmtSheet (y : Int) (m : Nat) : String := toString y ++ "_" ++ pad2 m

/-- Embedding of `getSheetNameFromDate` (`sheetService.js` lines 113-126):
falsy input falls back to the current month, then an unparseable date also
falls back, otherwise the parsed year/month is formatted. -/
def getSheetNameFromDate (env : DateEnv) (v : JSVal) : String :=
  if truthy v = false then fmtSheet env.nowYear env.nowMonth
  else
    match env.parseVal v with
    | none => fmtSheet env.nowYear env.nowMonth
    | some ym => fmtSheet ym.1 ym.2

/-- Insert a `(index, receipt)` pair into the insertion-ordered map
`receiptsBySheet` (part_001 lines 151-158): appended to an existing
bucket for the sheet name, else a new bucket at the end. -/
def insertGroup (acc : List (String × List (Nat × Receipt))) (name : String)
    (p : Nat × Receipt) : List (String × List (Nat × Receipt)) :=
  match acc with
  | [] => [(name, [p])]
  | (k, ps) :: rest =>
    if k = name then (k, ps ++ [p]) :: rest
    else (k, ps) :: insertGroup rest name p

/-- Grouping of the receipts by target sheet (part_001 lines 149-158); a JS
object with non-index string keys preserves insertion order, modelled by an
ordered association list. -/
def groupBySheet (env : DateEnv) (receipts : List Receipt) :
    List (String × List (Nat × Receipt)) :=
  receipts.enum.foldl
    (fun acc p => insertGroup acc (getSheetNameFromDate env p.2.date) p) []

/-- Model of the error objects thrown by remote calls: the fields
`retryWithBackoff` inspects (`sheetService.js` lines 33-34).  `message` is
modelled as the string it is after the `error.message || ''` guard. -/
structure JsError where
  code : JSVal
  status : JSVal
  statusCode : JSVal
  message : String
deriving DecidableEq, Repr

/-- The status chain `error.code || error.status || error.statusCode`
(`sheetService.js` line 33). -/
def errStatus (e : JsError) : JSVal := jsOr e.code (jsOr e.status e.statusCode)

/-- Transient-failure classification of `retryWithBackoff`
(`sheetService.js` lines 36-40): strict equality with 429, a lowercased
message containing "rate limit" or "quota", or a 5xx status. -/
def isRateLimitError (e : JsError) : Bool :=
  decide (errStatus e = JSVal.num 429) ||
  strHasSub e.message.toLower "rate limit" ||
  strHasSub e.message.toLower "quota" ||
  (jsGE (errStatus e) 500 && jsLT (errStatus e) 600)

/-- Loop body of `retryWithBackoff` (`sheetService.js` lines 29-54), with the
remaining iteration count made an explicit structural argument (`fuel` equals
`maxRetries - attempt`).  `op attempt` is the outcome of the `attempt`-th
execution of the wrapped operation.  The returned list is the sequence of
`setTimeout` delays awaited, in order; the value is `some a` on success and
`none` when the loop exits without running (only possible for
`maxRetries = 0`, where the JS function returns `undefined`). -/
def retryGo (op : Nat → Except JsError α) (maxRetries baseDelay : Nat) :
    Nat → Nat → Except JsError (Option α) × List Nat
  | 0, _ => (.ok none, [])
  | fuel + 1, attempt =>
    match op attempt with
    | .ok a => (.ok (some a), [])
    | .error e =>
      if !(isRateLimitError e) || attempt == maxRetries - 1 then (.error e, [])
      else
        let r := retryGo op maxRetries baseDelay fuel (attempt + 1)
        (r.1, baseDelay * 2 ^ attempt :: r.2)

/-- Embedding of `retryWithBackoff(fn, maxRetries, baseDelay)`
(`sheetService.js` lines 28-55). -/
def retryWithBackoff (op : Nat → Except JsError α) (maxRetries baseDelay : Nat) :
    Except JsError (Option α) × List Nat :=
  retryGo op maxRetries baseDelay maxRetries 0

/-- The exponential backoff delay sequence for `k` retried attempts starting
at attempt `j`: `baseDelay * 2^attempt` for each. -/
def delaysFrom (d j k : Nat) : List Nat := (List.range k).map (fun t => d * 2 ^ (j + t))

/-- Remote calls made by `ensureSheetExists`. -/
inductive RemoteCall where
  | getMeta
  | createSheet
  | writeHeader
deriving DecidableEq, Repr

/-- Remote behaviour seen by one attempt of the provisioning closure:
the outcome of `spreadsheets.get` (the list of existing sheet titles),
of `spreadsheets.batchUpdate` (addSheet) and of `values.update` (header). -/
structure ProvisionEnv where
  meta : Except JsError (List String)
  create : Except JsError Unit
  header : Except JsError Unit

/-- One attempt of the closure passed to `retryWithBackoff` by
`ensureSheetExists` (`sheetService.js` lines 147-199), together with the
remote calls it performs, in order. -/
def ensureAttempt (penv : ProvisionEnv) (sheetName : String) :
    Except JsError Unit × List RemoteCall :=
  match penv.meta with
  | .error e => (.error e, [.getMeta])
  | .ok titles =>
    if sheetName ∈ titles then (.ok (), [.getMeta])
    else
      match penv.create with
      | .error e => (.error e, [.getMeta, .createSheet])
      | .ok _ =>
        match penv.header with
        | .error e => (.error e, [.getMeta, .createSheet, .writeHeader])
        | .ok _ => (.ok (), [.getMeta, .createSheet, .writeHeader])

/-- The retry loop of `ensureSheetExists`, with the attempt environment
indexed by attempt number and the accumulated remote calls and delays
returned.  The boolean is `true` when the closure actually ran to success
(and hence added the cache entry); it is `false` only on `maxRetries = 0`
fall-through. -/
def ensureLoop (envs : Nat → ProvisionEnv) (sheetName : String) (m d : Nat) :
    Nat → Nat → Except JsError Bool × List RemoteCall × List Nat
  | 0, _ => (.ok false, [], [])
  | fuel + 1, attempt =>
    match ensureAttempt (envs attempt) sheetName with
    | (.ok _, calls) => (.ok true, calls, [])
    | (.error e, calls) =>
      if !(isRateLimitError e) || attempt == m - 1 then (.error e, calls, [])
      else
        let r := ensureLoop envs sheetName m d fuel (attempt + 1)
        (r.1, calls ++ r.2.1, d * 2 ^ attempt :: r.2.2)

/-- An error object thrown by the service code itself with the given message. -/
def mkErr (msg : String) : JsError := ⟨.undefined, .undefined, .undefined, msg⟩

/-- Embedding of `ensureSheetExists(sheetName, spreadsheetId)`
(`sheetService.js` lines 133-204) against the process-wide existence cache,
modelled as the list of cache keys.  Returns the outcome, the new cache and
the remote calls performed.  The target id is `spreadsheetId || SPREADSHEET_ID`
and the cache key is `` `${targetSpreadsheetId}_${sheetName}` ``; the cache is
consulted before any remote call and the entry is added only when the retried
closure completes successfully. -/
def ensureSheetExists (envs : Nat → ProvisionEnv) (m d : Nat)
    (spid envId : Option String) (sheetName : String) (cache : List String) :
    Except JsError Unit × List String × List RemoteCall :=
  match jsOrOpt spid envId with
  | none => (.error (mkErr "Spreadsheet ID is required for ensureSheetExists"), cache, [])
  | some tid =>
    let cacheKey := tid ++ "_" ++ sheetName
    if cacheKey ∈ cache then (.ok (), cache, [])
    else
      match ensureLoop envs sheetName m d m 0 with
      | (.ok added, calls, _) => (.ok (), if added then cacheKey :: cache else cache, calls)
      | (.error e, calls, _) => (.error e, cache, calls)

/-- Result of `spreadsheets.values.append` as `batchWriteToSheet` reads it:
`response.data.updates?.updatedRange` (`sheetService.js` line 246). -/
structure AppendOk where
  updatedRange : Option String
deriving DecidableEq, Repr

/-- Numeric value of a digit run (the `parseInt` of the regex capture). -/
def digitsToNat (cs : List Char) : Nat :=
  cs.foldl (fun n c => n * 10 + (c.toNat - '0'.toNat)) 0

/-- First match of the regex `/A(\d+)/`: the digit run after the first `A`
that is followed by at least one digit. -/
def findARow : List Char → Option Nat
  | [] => none
  | c :: rest =>
    if c = 'A' then
      let ds := rest.takeWhile Char.isDigit
      if ds.isEmpty then findARow rest else some (digitsToNat ds)
    else findARow rest

/-- The starting row computed from `updatedRange`
(`sheetService.js` lines 246-249): `0` when the range is missing or falsy or
the regex does not match. -/
def startRowOf (updatedRange : Option String) : Nat :=
  match updatedRange with
  | none => 0
  | some s => if s = "" then 0 else (findARow s.toList).getD 0

/-- The row values built for the append call (`sheetService.js` lines 221-232). -/
def rowsOf (receipts : List Receipt) : List (List JSVal) :=
  receipts.map (fun r =>
    [jsOr r.date (.str ""),
     jsOr r.storeName (.str ""),
     (match r.amountExclTax with
      | .null => .str ""
      | .undefined => .str ""
      | v => v),
     (match r.amountInclTax with
      | .null => .str ""
      | .undefined => .str ""
      | v => v)])

/-- One element of the array returned by `batchWriteToSheet`
(`sheetService.js` lines 255-258). -/
structure WriteResult where
  success : Bool
  rowNumber : Nat
deriving DecidableEq, Repr

/-- Abstract remote append endpoint: outcome of the (already retried)
`spreadsheets.values.append` call for a sheet name and row payload. -/
def RemoteAppend : Type := String → List (List JSVal) → Except JsError AppendOk

/-- Embedding of `batchWriteToSheet(sheetName, receipts, spreadsheetId)`
(`sheetService.js` lines 213-259).  The `remote` parameter abstracts the
retried append call (client initialisation failures are folded into its
error outcome); on success each receipt gets `startRow + index` as its row
number, `rows.map((_, index) => ...)` being modelled as a map over the row
positions. -/
def batchWriteToSheet (remote : RemoteAppend) (spid envId : Option String)
    (sheetName : String) (receipts : List Receipt) :
    Except JsError (List WriteResult) :=
  match jsOrOpt spid envId with
  | none => .error (mkErr "Spreadsheet ID is required")
  | some _ =>
    match remote sheetName (rowsOf receipts) with
    | .error e => .error e
    | .ok resp =>
      let startRow := startRowOf resp.updatedRange
      .ok ((List.range (rowsOf receipts).length).map (fun idx => ⟨true, startRow + idx⟩))

/-- One promise in the `executing` array of `processWithConcurrencyLimit`
(`src/unnamed/part_001` lines 17-42): the item index it was created for, the
worker's eventual outcome, and whether it has already settled while still
sitting in the array.  A settled entry can sit in the array because the
splicing `finally` handler is attached only after the `await Promise.race`
of the same iteration: a promise that settles during its own race has no
`finally` yet and lingers until the following checkpoint, after the next
race has already taken its snapshot. -/
structure ExecEntry (E : Type) where
  idx : Nat
  res : Except E Unit
  settled : Bool
deriving DecidableEq, Repr

/-- Result of one run of `processWithConcurrencyLimit`: whether the returned
promise rejected (`await Promise.race` rethrows a rejection), the item
indices whose processor was invoked, in invocation order, the largest number
of unsettled workers simultaneously in flight, and whether some worker
settled during the race of its own iteration (the source of lingering
settled promises). -/
structure PCLRun (E : Type) where
  thrown : Option E
  started : List Nat
  maxInFlight : Nat
  selfSettled : Bool
deriving DecidableEq, Repr

/-- Number of unsettled workers in the array. -/
def pendCount (exec : List (ExecEntry E)) : Nat :=
  (exec.filter (fun en => !en.settled)).length

/-- Positions (into the pending part of `executing`) that the schedule says
settle during one checkpoint, sanitised to valid distinct positions. -/
def idleChoice (choice : List Nat) (len : Nat) : List Nat :=
  (choice.filter (fun j => j < len)).dedup

/-- Settlement choice for a race that must wait for a fresh settlement: the
race cannot resolve until some pending promise settles, so an empty or
out-of-range choice defaults to the first pending promise. -/
def raceChoice (choice : List Nat) (len : Nat) : List Nat :=
  let ok := idleChoice choice len
  if ok.isEmpty then [0] else ok

/-- Elements of `xs` at the given positions, in that order. -/
def extractIdx (xs : List α) (idxs : List Nat) : List α :=
  idxs.filterMap (fun j => xs.get? j)

/-- Effect of the settlements of one checkpoint on the pending entries:
entries at the chosen positions settle; a settled promise whose `finally`
handler is already attached (every promise but the current iteration's,
whose handler is attached only after the race) is spliced out, while the
current iteration's promise stays in the array, now marked settled. -/
def settleStep (pend : List (ExecEntry E)) (choice : List Nat) (cur : Nat) :
    List (ExecEntry E) :=
  pend.enum.filterMap (fun p =>
    if p.1 ∈ choice then
      if p.2.idx = cur then some ⟨p.2.idx, p.2.res, true⟩ else none
    else some p.2)

/-- Driver loop of `processWithConcurrencyLimit`.  JavaScript's event loop
runs the `for` body synchronously between awaits, so promises settle only at
an `await Promise.race` (entered when `executing.length` reaches the limit)
or at the final `Promise.allSettled`; `σ t` chooses which pending promises
settle at the `t`-th race.  Fidelity notes, traced from part_001:
`p.finally` (which splices `p` out of `executing`) is attached only after
the race of `p`'s own iteration, so if `p` settles during that race it
lingers in the array, the next race's snapshot contains the already-settled
`p` and resolves immediately with `p`'s outcome — rethrowing it if it was a
rejection — without waiting for any fresh settlement, and only then is the
lingering entry spliced; a race with no settled promise in its snapshot
resolves with the first fresh settler, rethrowing its rejection, in which
case the loop ends and later items never start.  The final `allSettled`
never throws. -/
def pclAux (res : Nat → Except E Unit) (limit : Nat) (σ : Nat → List Nat) :
    List Nat → List (ExecEntry E) → Nat → Nat → List Nat → Bool → PCLRun E
  | [], _, _, maxIF, startedRev, selfAcc => ⟨none, startedRev.reverse, maxIF, selfAcc⟩
  | i :: rest, exec, t, maxIF, startedRev, selfAcc =>
    let exec2 := exec ++ [(⟨i, res i, false⟩ : ExecEntry E)]
    let maxIF2 := max maxIF (pendCount exec2)
    if exec2.length ≥ limit then
      match exec2.find? (fun en => en.settled) with
      | some s =>
        match s.res with
        | .error e => ⟨some e, (i :: startedRev).reverse, maxIF2, selfAcc⟩
        | .ok _ =>
          let pend := exec2.filter (fun en => !en.settled)
          let choice := idleChoice (σ t) pend.length
          pclAux res limit σ rest (settleStep pend choice i) (t + 1) maxIF2
            (i :: startedRev) (selfAcc || decide ((pend.length - 1) ∈ choice))
      | none =>
        let choice := raceChoice (σ t) exec2.length
        match (extractIdx exec2 choice).head? with
        | some ⟨_, .error e, _⟩ =>
          ⟨some e, (i :: startedRev).reverse, maxIF2, selfAcc⟩
        | _ =>
          pclAux res limit σ rest (settleStep exec2 choice i) (t + 1) maxIF2
            (i :: startedRev) (selfAcc || decide ((exec2.length - 1) ∈ choice))
    else
      pclAux res limit σ rest exec2 t maxIF2 (i :: startedRev) selfAcc

/-- Embedding of `processWithConcurrencyLimit(items, concurrencyLimit,
processor)` over `n` items, where `res i` is the settlement outcome of
`processor(items[i])` and `σ` is the settlement schedule. -/
def processWithConcurrencyLimit (res : Nat → Except E Unit) (n limit : Nat)
    (σ : Nat → List Nat) : PCLRun E :=
  pclAux res limit σ (List.range n) [] 0 0 [] false
/-- One per-record element of the `results` array of the batch controller
(part_001 lines 184-207). -/
structure OutcomeEntry where
  index : Nat
  success : Bool
  sheetName : Option String
  rowNumber : Option Nat
  error : Option String
deriving DecidableEq, Repr

/-- Entry written on the success path of a group (part_001 lines 186-191). -/
def okEntry (i : Nat) (sheetName : String) (w : WriteResult) : OutcomeEntry :=
  ⟨i, w.success, some sheetName, some w.rowNumber, none⟩

/-- Entry written when a group's append call threw (part_001 lines 200-207),
carrying `err.message || 'Unknown error'`. -/
def errEntry (i : Nat) (e : JsError) : OutcomeEntry :=
  ⟨i, false, none, none, some (jsOrStr e.message "Unknown error")⟩

/-- The `(index, entry)` pairs a destination group's worker writes into the
`results` array, as determined by the outcome of its append call. -/
def groupOutcome (remote : RemoteAppend) (spid envId : Option String)
    (g : String × List (Nat × Receipt)) : List (Nat × OutcomeEntry) :=
  match batchWriteToSheet remote spid envId g.1 (g.2.map Prod.snd) with
  | .error e => g.2.map (fun p => (p.1, errEntry p.1 e))
  | .ok ws => (ws.zip g.2).map (fun q => (q.2.1, okEntry q.2.1 g.1 q.1))

/-- The worker run for one destination group (part_001 lines 176-209):
writes each member's entry into the `results` array at its original index
and bumps the success/failure counters. -/
def applyGroup (remote : RemoteAppend) (spid envId : Option String)
    (st : List (Option OutcomeEntry) × Nat × Nat)
    (g : String × List (Nat × Receipt)) :
    List (Option OutcomeEntry) × Nat × Nat :=
  match batchWriteToSheet remote spid envId g.1 (g.2.map Prod.snd) with
  | .ok ws =>
    (ws.zip g.2).foldl
      (fun st q =>
        (st.1.set q.2.1 (some (okEntry q.2.1 g.1 q.1)),
         if q.1.success then st.2.1 + 1 else st.2.1,
         if q.1.success then st.2.2 else st.2.2 + 1)) st
  | .error e =>
    g.2.foldl
      (fun st p =>
        (st.1.set p.1 (some (errEntry p.1 e)), st.2.1, st.2.2 + 1)) st

/-- Invocations of the sheet service by the batch controller, in order:
one `ensureCall` per `ensureSheetExists` invocation, one `appendCall` per
remote append actually dispatched. -/
inductive ServiceCall where
  | ensureCall (sheetName : String)
  | appendCall (sheetName : String)
deriving DecidableEq, Repr

/-- The completion order of the destination-group workers: an arbitrary
choice `π` sanitised into a permutation of `0..len-1` (every worker settles
exactly once because its body catches all errors). -/
def completionOrder (π : List Nat) (len : Nat) : List Nat :=
  let ok := (π.filter (fun j => j < len)).dedup
  ok ++ (List.range len).filter (fun j => j ∉ ok)

/-- Request body of `POST /api/sheets/batch-write`: `receipts` is `none`
when `req.body.receipts` is not an array, and `spreadsheetId` is the value
of `req.body.spreadsheetId?.trim() || null`. -/
structure BatchBody where
  receipts : Option (List Receipt)
  spreadsheetId : Option String

/-- Response of the batch controller: a 400 validation rejection, the
top-level catch handing the error to `errorHandler` (part_001 lines
220-223), or the 200 payload (part_001 lines 213-219). -/
inductive BWResponse where
  | badRequest (message : String) (invalid : List InvalidReceipt)
  | serverError (e : JsError)
  | ok (successCount failureCount total : Nat) (results : List (Option OutcomeEntry))
deriving DecidableEq, Repr

/-- HTTP status of a response where the controller sets one itself;
the status of the `errorHandler` path is decided outside the sources. -/
def statusOf : BWResponse → Option Nat
  | .badRequest _ _ => some 400
  | .serverError _ => none
  | .ok _ _ _ _ => some 200

/-- Embedding of the `batchWrite` controller (`src/unnamed/part_001` lines
99-224).  `provision sheetName` is the outcome of
`ensureSheetExists(sheetName, spreadsheetId)`; `remote` is the append
endpoint used by `batchWriteToSheet`; `limit` is the parsed
`SHEETS_MAX_CONCURRENCY`; `σ` schedules the provisioning races and `π`
orders the settlement of the per-group write workers (whose bodies never
reject).  Returns the response together with the sheet-service invocations
performed. -/
def batchWrite (denv : DateEnv) (remote : RemoteAppend)
    (provision : String → Except JsError Unit) (envId : Option String)
    (limit : Nat) (σ : Nat → List Nat) (π : List Nat)
    (body : Option BatchBody) : BWResponse × List ServiceCall :=
  match body with
  | none => (.badRequest "Request body must contain receipts array" [], [])
  | some b =>
    match b.receipts with
    | none => (.badRequest "Request body must contain receipts array" [], [])
    | some receipts =>
      if receipts.length = 0 then (.badRequest "Receipts array cannot be empty" [], [])
      else
        let invalid := invalidReceipts receipts
        if !invalid.isEmpty then
          (.badRequest "Some receipts are missing required fields" invalid, [])
        else
          let groups := groupBySheet denv receipts
          let sheetNames := groups.map Prod.fst
          let prun : PCLRun JsError :=
            processWithConcurrencyLimit
              (fun i => provision (sheetNames.getD i "")) sheetNames.length limit σ
          let provCalls := prun.started.map (fun i => ServiceCall.ensureCall (sheetNames.getD i ""))
          match prun.thrown with
          | some e => (.serverError e, provCalls)
          | none =>
            let ordered := (completionOrder π groups.length).filterMap (fun j => groups.get? j)
            let st := ordered.foldl (applyGroup remote b.spreadsheetId envId)
              (List.replicate receipts.length none, 0, 0)
            let appendCalls := ordered.filterMap (fun g =>
              if jsOrOpt b.spreadsheetId envId = none then none
              else some (ServiceCall.appendCall g.1))
            (.ok st.2.1 st.2.2 receipts.length st.1, provCalls ++ appendCalls)

/-! ## Destination resolver (claim C5) -/

/-- Claim C5: `getSheetNameFromDate` is total (the embedding is a total
function, matching the absence of any `throw` in the source): on a parseable
date it formats that date's year and two-digit month, on `undefined`, `null`,
empty or unparseable input it falls back to the current system month, so the
fallback results coincide; in particular `"2025-01-15"` and `"2025-01-31"`
both resolve to `"2025_01"` when the environment parses them to January
2025. -/
theorem getSheetNameFromDate_spec (env : DateEnv) :
    (∀ v y m, truthy v = true → env.parseVal v = some (y, m) →
      getSheetNameFromDate env v = fmtSheet y m) ∧
    (getSheetNameFromDate env .undefined = fmtSheet env.nowYear env.nowMonth ∧
     getSheetNameFromDate env .null = fmtSheet env.nowYear env.nowMonth ∧
     getSheetNameFromDate env (.str "") = fmtSheet env.nowYear env.nowMonth) ∧
    (∀ s, env.parseVal (.str s) = none →
      getSheetNameFromDate env (.str s) = fmtSheet env.nowYear env.nowMonth) ∧
    (env.parseVal (.str "not-a-date") = none →
      getSheetNameFromDate env (.str "not-a-date") =
        getSheetNameFromDate env .undefined) ∧
    (env.parseVal (.str "2025-01-15") = some (2025, 1) →
     env.parseVal (.str "2025-01-31") = some (2025, 1) →
      getSheetNameFromDate env (.str "2025-01-15") = "2025_01" ∧
      getSheetNameFromDate env (.str "2025-01-31") = "2025_01") := by
  refine ⟨?_, ⟨rfl, rfl, rfl⟩, ?_, ?_, ?_⟩
  · intro v y m hv hp
    simp [getSheetNameFromDate, hv, hp]
  · intro s hp
    by_cases hs : s = ""
    · subst hs; rfl
    · simp [getSheetNameFromDate, truthy, hs, hp]
  · intro hp
    simp [getSheetNameFromDate, truthy, hp]
  · intro h1 h2
    constructor
    · simp [getSheetNameFromDate, truthy, h1]; rfl
    · simp [getSheetNameFromDate, truthy, h2]; rfl

/-- Witness for C5 at a concrete environment. -/
def cDateEnv : DateEnv :=
  ⟨fun v =>
    match v with
    | .str "2025-01-15" => some (2025, 1)
    | .str "2025-01-31" => some (2025, 1)
    | .str "2025-01-05" => some (2025, 1)
    | .str "2025-02-10" => some (2025, 2)
    | _ => none, 2025, 3⟩

/-- Witness instantiating `getSheetNameFromDate_spec`: with a concrete date
oracle, both January dates resolve to `"2025_01"` and the fallback results
agree on `"2025_03"`. -/
theorem getSheetNameFromDate_spec_witness :
    getSheetNameFromDate cDateEnv (.str "2025-01-15") = "2025_01" ∧
    getSheetNameFromDate cDateEnv (.str "2025-01-31") = "2025_01" ∧
    getSheetNameFromDate cDateEnv (.str "not-a-date") =
      getSheetNameFromDate cDateEnv .undefined ∧
    getSheetNameFromDate cDateEnv .undefined = "2025_03" := by
  obtain ⟨-, -, -, h4, h5⟩ := getSheetNameFromDate_spec cDateEnv
  obtain ⟨ha, hb⟩ := h5 rfl rfl
  exact ⟨ha, hb, h4 rfl, rfl⟩

/-! ## Transient-fault retrier (claim C4) -/

/-- Characterisation of `retryGo` along a run of transient failures starting
at attempt `j` with `fuel + j = maxRetries`. -/
theorem retryGo_run (op : Nat → Except JsError α) (m d : Nat) :
    ∀ (k j fuel : Nat), fuel + j = m → k < fuel →
    (∀ i, j ≤ i → i < j + k → ∃ e, op i = .error e ∧ isRateLimitError e = true) →
    (∀ a, op (j + k) = .ok a →
      retryGo op m d fuel j = (.ok (some a), delaysFrom d j k)) ∧
    (∀ e, op (j + k) = .error e → isRateLimitError e = false →
      retryGo op m d fuel j = (.error e, delaysFrom d j k)) ∧
    (∀ e, op (j + k) = .error e → j + k = m - 1 →
      retryGo op m d fuel j = (.error e, delaysFrom d j k)) := by
  intro k
  induction k with
  | zero =>
    intro j fuel hfj hk _
    obtain ⟨f, rfl⟩ : ∃ f, fuel = f + 1 := ⟨fuel - 1, by omega⟩
    refine ⟨?_, ?_, ?_⟩
    · intro a ha
      simp only [Nat.add_zero] at ha
      simp [retryGo, ha, delaysFrom]
    · intro e he htr
      simp only [Nat.add_zero] at he
      simp [retryGo, he, htr, delaysFrom]
    · intro e he hj
      simp only [Nat.add_zero] at he hj
      have hb : (j == m - 1) = true := by simp [hj]
      simp [retryGo, he, hb, delaysFrom]
  | succ k ih =>
    intro j fuel hfj hk hfail
    obtain ⟨f, rfl⟩ : ∃ f, fuel = f + 1 := ⟨fuel - 1, by omega⟩
    obtain ⟨e, he, htr⟩ := hfail j le_rfl (by omega)
    have hjm : (j == m - 1) = false := by
      simp only [beq_eq_false_iff_ne, ne_eq]
      omega
    have hrec := ih (j + 1) f (by omega) (by omega)
      (fun i h1 h2 => hfail i (by omega) (by omega))
    have hshift : ∀ r : Except JsError (Option α),
        retryGo op m d f (j + 1) = (r, delaysFrom d (j + 1) k) →
        retryGo op m d (f + 1) j = (r, delaysFrom d j (k + 1)) := by
      intro r hr
      have hdel : delaysFrom d j (k + 1) = d * 2 ^ j :: delaysFrom d (j + 1) k := by
        simp only [delaysFrom, List.range_succ_eq_map, List.map_cons, Nat.add_zero,
          List.map_map]
        refine congrArg₂ _ rfl (List.map_congr_left ?_)
        intro t _
        simp only [Function.comp_apply, Nat.succ_eq_add_one]
        have harr : j + (t + 1) = j + 1 + t := by omega
        rw [harr]
      simp [retryGo, he, htr, hjm, hr, hdel]
    have harith : j + (k + 1) = (j + 1) + k := by omega
    refine ⟨?_, ?_, ?_⟩
    · intro a ha
      rw [harith] at ha
      exact hshift _ ((hrec.1) a ha)
    · intro e2 he2 htr2
      rw [harith] at he2
      exact hshift _ ((hrec.2.1) e2 he2 htr2)
    · intro e2 he2 hj2
      rw [harith] at he2
      exact hshift _ ((hrec.2.2) e2 he2 (by omega))

/-- Claim C4: with `maxRetries = m ≥ 1` and base delay `d`, after `k`
transient failures (`k < m`), `retryWithBackoff` returns the operation's
result if attempt `k` succeeds, having waited `d * 2^attempt` before each
retry; a non-transient failure, or a failure on the last of the `m`
attempts, is propagated to the caller after the same delays. -/
theorem retryWithBackoff_spec (op : Nat → Except JsError α) (m d k : Nat)
    (hm : 1 ≤ m) (hk : k < m)
    (hfail : ∀ i, i < k → ∃ e, op i = .error e ∧ isRateLimitError e = true) :
    (∀ a, op k = .ok a → retryWithBackoff op m d =
      (.ok (some a), (List.range k).map (fun t => d * 2 ^ t))) ∧
    (∀ e, op k = .error e → isRateLimitError e = false →
      retryWithBackoff op m d = (.error e, (List.range k).map (fun t => d * 2 ^ t))) ∧
    (k = m - 1 → ∀ e, op k = .error e →
      retryWithBackoff op m d = (.error e, (List.range k).map (fun t => d * 2 ^ t))) := by
  have h := retryGo_run op m d k 0 m (by omega) hk
    (fun i h1 h2 => hfail i (by omega))
  simp only [Nat.zero_add] at h
  have hdel : delaysFrom d 0 k = (List.range k).map (fun t => d * 2 ^ t) := by
    simp [delaysFrom]
  rw [hdel] at h
  exact ⟨h.1, h.2.1, fun hkm e he => (h.2.2) e he (by omega)⟩

/-- A 429 error as produced by the remote API in the retry scenario. -/
def c429 : JsError := ⟨.num 429, .undefined, .undefined, "Too Many Requests"⟩

/-- The operation of the C4 scenario: two 429 failures, then success. -/
def cOp : Nat → Except JsError Nat :=
  fun attempt => if attempt < 2 then .error c429 else .ok 42

/-- Witness instantiating `retryWithBackoff_spec`: an operation failing twice
with 429 and succeeding on the third attempt returns the success result after
delays `baseDelay` and `baseDelay * 2`. -/
theorem retryWithBackoff_spec_witness :
    retryWithBackoff cOp 3 100 = (.ok (some 42), [100, 200]) := by
  have h := (retryWithBackoff_spec cOp 3 100 2 (by decide) (by decide)
    (fun i hi => ⟨c429, by interval_cases i <;> rfl, by decide⟩)).1 42 rfl
  simpa using h

/-! ## Destination provisioner and existence cache (claim C7) -/

/-- Number of remote sheet-creation calls in a call log. -/
def countCreate (calls : List RemoteCall) : Nat := calls.count RemoteCall.createSheet

/-- The call log of one provisioning attempt is one of the three concrete
shapes of the closure body. -/
theorem ensureAttempt_calls (penv : ProvisionEnv) (sheetName : String) :
    (ensureAttempt penv sheetName).2 = [.getMeta] ∨
    (ensureAttempt penv sheetName).2 = [.getMeta, .createSheet] ∨
    (ensureAttempt penv sheetName).2 = [.getMeta, .createSheet, .writeHeader] := by
  unfold ensureAttempt
  rcases penv with ⟨meta, create, header⟩
  rcases meta with e | titles
  · exact Or.inl rfl
  · by_cases ht : sheetName ∈ titles
    · simp [ht]
    · rcases create with e | u
      · simp [ht]
      · rcases header with e | u <;> simp [ht]

/-- Every attempt makes at most one sheet-creation call. -/
theorem ensureAttempt_countCreate (penv : ProvisionEnv) (sheetName : String) :
    countCreate (ensureAttempt penv sheetName).2 ≤ 1 := by
  rcases ensureAttempt_calls penv sheetName with h | h | h <;>
    simp [countCreate, h, List.count_cons]

/-- The call log of a (positive-fuel) provisioning loop starts with the
metadata fetch: the full check-and-create sequence begins with the remote
existence check. -/
theorem ensureLoop_calls_head (envs : Nat → ProvisionEnv) (sheetName : String)
    (m d : Nat) :
    ∀ fuel attempt, 1 ≤ fuel →
      ((ensureLoop envs sheetName m d fuel attempt).2.1).head? = some .getMeta := by
  intro fuel
  induction fuel with
  | zero => intro attempt h; omega
  | succ f ih =>
    intro attempt _
    have hhead : ((ensureAttempt (envs attempt) sheetName).2).head? =
        some RemoteCall.getMeta := by
      rcases ensureAttempt_calls (envs attempt) sheetName with h | h | h <;> simp [h]
    unfold ensureLoop
    rcases hatt : ensureAttempt (envs attempt) sheetName with ⟨out, calls⟩
    rw [hatt] at hhead
    simp only at hhead
    rcases out with e | u
    · by_cases hc : (!isRateLimitError e || attempt == m - 1) = true
      · simpa [hc] using hhead
      · rw [Bool.not_eq_true] at hc
        rcases calls with _ | ⟨a, as⟩
        · simp at hhead
        · simpa [hc] using hhead
    · simpa using hhead

/-- Claim C7: with a present target id and at least one retry attempt,
(1) a cache hit returns at once with no remote call; (2) if the first
attempt of the closure succeeds, the call adds exactly the cache key, makes
the attempt's calls (at most one create), and a subsequent call for the same
destination is a remote-free cache hit; (3) a failed call leaves the cache
unchanged; (4) on a cache miss the performed sequence starts with the remote
existence check again. -/
theorem ensureSheetExists_idempotent (envs envs2 : Nat → ProvisionEnv)
    (m m2 d d2 : Nat) (spid envId : Option String) (sheetName : String)
    (cache : List String) (tid : String)
    (htid : jsOrOpt spid envId = some tid) (hm : 1 ≤ m) :
    (tid ++ "_" ++ sheetName ∈ cache →
      ensureSheetExists envs m d spid envId sheetName cache = (.ok (), cache, [])) ∧
    ((ensureAttempt (envs 0) sheetName).1 = .ok () →
      ensureSheetExists envs m d spid envId sheetName cache =
        (.ok (),
         if tid ++ "_" ++ sheetName ∈ cache then cache
           else (tid ++ "_" ++ sheetName) :: cache,
         if tid ++ "_" ++ sheetName ∈ cache then []
           else (ensureAttempt (envs 0) sheetName).2) ∧
      countCreate (ensureAttempt (envs 0) sheetName).2 ≤ 1 ∧
      ensureSheetExists envs2 m2 d2 spid envId sheetName
          (ensureSheetExists envs m d spid envId sheetName cache).2.1 =
        (.ok (), (ensureSheetExists envs m d spid envId sheetName cache).2.1, [])) ∧
    (∀ e, (ensureSheetExists envs m d spid envId sheetName cache).1 = .error e →
      (ensureSheetExists envs m d spid envId sheetName cache).2.1 = cache) ∧
    (tid ++ "_" ++ sheetName ∉ cache →
      ((ensureSheetExists envs m d spid envId sheetName cache).2.2).head? =
        some .getMeta) := by
  obtain ⟨f, rfl⟩ : ∃ f, m = f + 1 := ⟨m - 1, by omega⟩
  have hloopOk : (ensureAttempt (envs 0) sheetName).1 = .ok () →
      ensureLoop envs sheetName (f + 1) d (f + 1) 0 =
        (.ok true, (ensureAttempt (envs 0) sheetName).2, []) := by
    intro h0
    unfold ensureLoop
    rcases hatt : ensureAttempt (envs 0) sheetName with ⟨out, calls⟩
    rw [hatt] at h0
    simp only at h0
    rw [h0]
  refine ⟨?_, ?_, ?_, ?_⟩
  · intro hmem
    simp [ensureSheetExists, htid, hmem]
  · intro h0
    by_cases hmem : tid ++ "_" ++ sheetName ∈ cache
    · refine ⟨by simp [ensureSheetExists, htid, hmem], ensureAttempt_countCreate _ _, ?_⟩
      have h1 : ensureSheetExists envs (f + 1) d spid envId sheetName cache =
          (.ok (), cache, []) := by simp [ensureSheetExists, htid, hmem]
      rw [h1]
      simp [ensureSheetExists, htid, hmem]
    · have h1 : ensureSheetExists envs (f + 1) d spid envId sheetName cache =
          (.ok (), (tid ++ "_" ++ sheetName) :: cache,
            (ensureAttempt (envs 0) sheetName).2) := by
        simp [ensureSheetExists, htid, hmem, hloopOk h0]
      refine ⟨by simp [h1, hmem], ensureAttempt_countCreate _ _, ?_⟩
      rw [h1]
      simp [ensureSheetExists, htid]
  · intro e herr
    by_cases hmem : tid ++ "_" ++ sheetName ∈ cache
    · simp [ensureSheetExists, htid, hmem]
    · simp only [ensureSheetExists, htid, hmem] at herr ⊢
      rcases hloop : ensureLoop envs sheetName (f + 1) d (f + 1) 0 with ⟨out, calls, ds⟩
      rcases out with e2 | b
      · simp [hloop]
      · rw [hloop] at herr
        simp at herr
  · intro hmem
    have hh := ensureLoop_calls_head envs sheetName (f + 1) d (f + 1) 0 (by omega)
    simp only [ensureSheetExists, htid]
    rcases hloop : ensureLoop envs sheetName (f + 1) d (f + 1) 0 with ⟨out, calls, ds⟩
    rw [hloop] at hh
    rcases out with e2 | b <;> simpa [hmem] using hh

/-- Remote behaviour for the C7 witness: the destination does not exist yet
and every remote call succeeds. -/
def cProvEnv : ProvisionEnv := ⟨.ok ["other"], .ok (), .ok ()⟩

/-- Witness instantiating `ensureSheetExists_idempotent`: the first call
creates the sheet (one create call) and populates the cache; the second call
is a cache hit performing no remote call. -/
theorem ensureSheetExists_idempotent_witness :
    ensureSheetExists (fun _ => cProvEnv) 3 1000 none (some "S") "2025_01" [] =
      (.ok (), ["S_2025_01"], [.getMeta, .createSheet, .writeHeader]) ∧
    ensureSheetExists (fun _ => cProvEnv) 3 1000 none (some "S") "2025_01"
        ["S_2025_01"] = (.ok (), ["S_2025_01"], []) ∧
    countCreate [.getMeta, .createSheet, .writeHeader] = 1 := by
  obtain ⟨h1, -, h3⟩ := (ensureSheetExists_idempotent (fun _ => cProvEnv)
    (fun _ => cProvEnv) 3 3 1000 1000 none (some "S") "2025_01" [] "S" rfl
    (by decide)).2.1 rfl
  have h1' : ensureSheetExists (fun _ => cProvEnv) 3 1000 none (some "S") "2025_01" [] =
      (.ok (), ["S_2025_01"], [.getMeta, .createSheet, .writeHeader]) := by
    rw [h1]; decide
  refine ⟨h1', ?_, by decide⟩
  rw [h1'] at h3
  simpa using h3

/-! ## Concurrency-limited executor (claims C3 and C8) -/

theorem idleChoice_subset (c : List Nat) (len : Nat) :
    ∀ j ∈ idleChoice c len, j < len := by
  intro j hj
  exact of_decide_eq_true (List.mem_filter.mp (List.mem_dedup.mp hj)).2

/-- A race waiting for a fresh settlement always settles at least one valid
position. -/
theorem raceChoice_exists (c : List Nat) (len : Nat) (hlen : 0 < len) :
    ∃ j ∈ raceChoice c len, j < len := by
  simp only [raceChoice]
  by_cases h : (idleChoice c len).isEmpty
  · exact ⟨0, by simp [h], hlen⟩
  · rw [if_neg (by simpa using h)]
    have hne : idleChoice c len ≠ [] := by
      intro hnil
      rw [hnil] at h
      simp at h
    obtain ⟨j, hj⟩ := List.exists_mem_of_ne_nil _ hne
    exact ⟨j, hj, idleChoice_subset c len j hj⟩

/-- Members produced by `extractIdx` come from the source list. -/
theorem extractIdx_subset {xs : List α} {idxs : List Nat} {a : α}
    (h : a ∈ extractIdx xs idxs) : a ∈ xs := by
  obtain ⟨j, -, hj⟩ := List.mem_filterMap.mp h
  exact List.get?_mem hj

/-- Entries surviving a settlement step carry the index and outcome of an
entry of the pending list. -/
theorem settleStep_subset {pend : List (ExecEntry E)} {choice : List Nat}
    {cur : Nat} {en2 : ExecEntry E} (h : en2 ∈ settleStep pend choice cur) :
    ∃ en ∈ pend, en2.idx = en.idx ∧ en2.res = en.res := by
  obtain ⟨⟨k, en⟩, hk, hf⟩ := List.mem_filterMap.mp h
  have hmem : en ∈ pend :=
    List.get?_mem (List.mk_mem_enum_iff_get?.mp hk)
  by_cases hkc : k ∈ choice
  · rw [if_pos hkc] at hf
    by_cases hcur : en.idx = cur
    · rw [if_pos hcur] at hf
      cases hf
      exact ⟨en, hmem, rfl, rfl⟩
    · rw [if_neg hcur] at hf
      cases hf
  · rw [if_neg hkc] at hf
    cases hf
    exact ⟨en, hmem, rfl, rfl⟩

theorem filterMap_length_lt {f : α → Option β} :
    ∀ {l : List α}, (∃ x ∈ l, f x = none) → (l.filterMap f).length < l.length := by
  intro l
  induction l with
  | nil => intro h; obtain ⟨x, hx, -⟩ := h; cases hx
  | cons y ys ih =>
    intro h
    obtain ⟨x, hx, hfx⟩ := h
    rcases List.mem_cons.mp hx with hxy | hxys
    · subst hxy
      rw [List.filterMap_cons_none hfx]
      exact Nat.lt_succ_of_le (List.length_filterMap_le f ys)
    · rw [List.filterMap_cons]
      cases hfy : f y with
      | none => exact Nat.lt_succ_of_le (List.length_filterMap_le f ys)
      | some b =>
        simp only [List.length_cons]
        exact Nat.succ_lt_succ (ih ⟨x, hxys, hfx⟩)

/-- When the chosen positions avoid the current (last) entry and only the
last entry can carry the current index, a settlement step keeps every
surviving entry unsettled. -/
theorem settleStep_all_unsettled {pend : List (ExecEntry E)} {choice : List Nat}
    {cur : Nat} (hset : ∀ en ∈ pend, en.settled = false)
    (hcur : ∀ k en, pend.get? k = some en → en.idx = cur → k = pend.length - 1)
    (hlast : (pend.length - 1) ∉ choice) :
    ∀ en2 ∈ settleStep pend choice cur, en2.settled = false := by
  intro en2 h
  obtain ⟨⟨k, en⟩, hk, hf⟩ := List.mem_filterMap.mp h
  have hget : pend.get? k = some en := List.mk_mem_enum_iff_get?.mp hk
  by_cases hkc : k ∈ choice
  · rw [if_pos hkc] at hf
    by_cases hc : en.idx = cur
    · exact absurd hkc ((hcur k en hget hc) ▸ hlast)
    · rw [if_neg hc] at hf
      cases hf
  · rw [if_neg hkc] at hf
    cases hf
    exact hset en (List.get?_mem hget)

/-- A settlement step that settles some valid non-current position strictly
shrinks the array. -/
theorem settleStep_length_lt {pend : List (ExecEntry E)} {choice : List Nat}
    {cur : Nat} (hch : ∃ j ∈ choice, j < pend.length)
    (hcur : ∀ k en, pend.get? k = some en → en.idx = cur → k = pend.length - 1)
    (hlast : (pend.length - 1) ∉ choice) :
    (settleStep pend choice cur).length < pend.length := by
  obtain ⟨j, hj, hjlen⟩ := hch
  obtain ⟨en, hen⟩ : ∃ en, pend.get? j = some en := by
    rw [List.get?_eq_get hjlen]
    exact ⟨_, rfl⟩
  have hne : en.idx ≠ cur := fun hc => hlast ((hcur j en hen hc) ▸ hj)
  have hex : ∃ x ∈ pend.enum, (fun p : Nat × ExecEntry E =>
      if p.1 ∈ choice then
        if p.2.idx = cur then some (⟨p.2.idx, p.2.res, true⟩ : ExecEntry E)
        else none
      else some p.2) x = none :=
    ⟨(j, en), List.mk_mem_enum_iff_get?.mpr hen, by simp [hj, hne]⟩
  have hlt := filterMap_length_lt hex
  rw [List.enum_length] at hlt
  exact hlt

theorem pendCount_of_unsettled {exec : List (ExecEntry E)}
    (h : ∀ en ∈ exec, en.settled = false) : pendCount exec = exec.length := by
  unfold pendCount
  rw [List.filter_length_eq_length.mpr]
  intro en hen
  simp [h en hen]

/-- Once a worker has settled during its own race, the flag stays raised. -/
theorem pclAux_selfSettled_mono (res : Nat → Except E Unit) (limit : Nat)
    (σ : Nat → List Nat) :
    ∀ (items : List Nat) (exec : List (ExecEntry E)) (t maxIF : Nat)
      (startedRev : List Nat),
      (pclAux res limit σ items exec t maxIF startedRev true).selfSettled = true := by
  intro items
  induction items with
  | nil => intro exec t maxIF startedRev; rfl
  | cons i rest ih =>
    intro exec t maxIF startedRev
    simp only [pclAux]
    by_cases hrace : (exec ++ [(⟨i, res i, false⟩ : ExecEntry E)]).length ≥ limit
    · rw [if_pos hrace]
      rcases hfind : (exec ++ [(⟨i, res i, false⟩ : ExecEntry E)]).find?
          (fun en => en.settled) with _ | ⟨sa, so, sb⟩
      · rw [hfind]
        rcases hh : (extractIdx (exec ++ [(⟨i, res i, false⟩ : ExecEntry E)])
            (raceChoice (σ t)
              (exec ++ [(⟨i, res i, false⟩ : ExecEntry E)]).length)).head?
            with _ | ⟨ea, eo, eb⟩
        · exact ih _ (t + 1) _ (i :: startedRev)
        · rcases eo with e | u
          · rfl
          · exact ih _ (t + 1) _ (i :: startedRev)
      · rcases so with e | u
        · rw [hfind]
        · rw [hfind]
          exact ih _ (t + 1) _ (i :: startedRev)
    · rw [if_neg hrace]
      exact ih _ t _ (i :: startedRev)

/-- In-flight bound of the executor loop on runs in which no worker settles
during its own race: the array then never holds a lingering settled promise,
every race removes at least one worker, and the number of unsettled workers
never exceeds the limit. -/
theorem pclAux_bound (res : Nat → Except E Unit) (limit : Nat) (σ : Nat → List Nat) :
    ∀ (items : List Nat) (exec : List (ExecEntry E)) (t maxIF : Nat)
      (startedRev : List Nat) (selfAcc : Bool),
      (∀ en ∈ exec, en.settled = false) →
      (∀ en ∈ exec, ∀ j ∈ items, en.idx < j) →
      items.Pairwise (· < ·) →
      exec.length < limit → maxIF ≤ limit →
      (pclAux res limit σ items exec t maxIF startedRev selfAcc).selfSettled
        = false →
      (pclAux res limit σ items exec t maxIF startedRev selfAcc).maxInFlight
        ≤ limit := by
  intro items
  induction items with
  | nil =>
    intro exec t maxIF startedRev selfAcc _ _ _ _ hmax _
    simpa [pclAux] using hmax
  | cons i rest ih =>
    intro exec t maxIF startedRev selfAcc hset hidx hpw hlen hmax hrun
    have hset2 : ∀ en ∈ exec ++ [(⟨i, res i, false⟩ : ExecEntry E)],
        en.settled = false := by
      intro en hen
      rcases List.mem_append.mp hen with h | h
      · exact hset en h
      · simp only [List.mem_singleton] at h
        rw [h]
    have hpend : pendCount (exec ++ [(⟨i, res i, false⟩ : ExecEntry E)])
        = (exec ++ [(⟨i, res i, false⟩ : ExecEntry E)]).length :=
      pendCount_of_unsettled hset2
    have hlen2 : (exec ++ [(⟨i, res i, false⟩ : ExecEntry E)]).length ≤ limit := by
      simp only [List.length_append, List.length_cons, List.length_nil]
      omega
    have hmax2 : max maxIF
        (pendCount (exec ++ [(⟨i, res i, false⟩ : ExecEntry E)])) ≤ limit := by
      rw [hpend]
      exact max_le hmax hlen2
    have hcur : ∀ k en,
        (exec ++ [(⟨i, res i, false⟩ : ExecEntry E)]).get? k = some en →
        en.idx = i →
        k = (exec ++ [(⟨i, res i, false⟩ : ExecEntry E)]).length - 1 := by
      intro k en hget hc
      by_cases hk : k < exec.length
      · rw [List.get?_append hk] at hget
        have := hidx en (List.get?_mem hget) i (List.mem_cons_self _ _)
        omega
      · have hk2 : k < (exec ++ [(⟨i, res i, false⟩ : ExecEntry E)]).length :=
          (List.get?_eq_some.mp hget).1
        simp only [List.length_append, List.length_cons, List.length_nil] at hk2 ⊢
        omega
    have hidx2 : ∀ en2 ∈ settleStep (exec ++ [(⟨i, res i, false⟩ : ExecEntry E)])
        (raceChoice (σ t) (exec ++ [(⟨i, res i, false⟩ : ExecEntry E)]).length) i,
        ∀ j ∈ rest, en2.idx < j := by
      intro en2 hen2 j hj
      obtain ⟨en, hen, hidxeq, -⟩ := settleStep_subset hen2
      rw [hidxeq]
      rcases List.mem_append.mp hen with h | h
      · exact hidx en h j (List.mem_cons_of_mem _ hj)
      · simp only [List.mem_singleton] at h
        rw [h]
        exact (List.pairwise_cons.mp hpw).1 j hj
    have hpwr : rest.Pairwise (· < ·) := (List.pairwise_cons.mp hpw).2
    simp only [pclAux] at hrun ⊢
    by_cases hrace : (exec ++ [(⟨i, res i, false⟩ : ExecEntry E)]).length ≥ limit
    · rw [if_pos hrace] at hrun ⊢
      have hfind : (exec ++ [(⟨i, res i, false⟩ : ExecEntry E)]).find?
          (fun en => en.settled) = none := by
        rw [List.find?_eq_none]
        intro en hen
        simp [hset2 en hen]
      rw [hfind] at hrun ⊢
      rcases hh : (extractIdx (exec ++ [(⟨i, res i, false⟩ : ExecEntry E)])
          (raceChoice (σ t)
            (exec ++ [(⟨i, res i, false⟩ : ExecEntry E)]).length)).head?
          with _ | ⟨ea, eo, eb⟩
      · rw [hh] at hrun
        have hrun2 : (pclAux res limit σ rest
            (settleStep (exec ++ [(⟨i, res i, false⟩ : ExecEntry E)])
              (raceChoice (σ t)
                (exec ++ [(⟨i, res i, false⟩ : ExecEntry E)]).length) i)
            (t + 1)
            (max maxIF (pendCount (exec ++ [(⟨i, res i, false⟩ : ExecEntry E)])))
            (i :: startedRev)
            (selfAcc || decide
              (((exec ++ [(⟨i, res i, false⟩ : ExecEntry E)]).length - 1)
                ∈ raceChoice (σ t)
                  (exec ++ [(⟨i, res i, false⟩ : ExecEntry E)]).length))).selfSettled
            = false := hrun
        have hlast : ((exec ++ [(⟨i, res i, false⟩ : ExecEntry E)]).length - 1)
            ∉ raceChoice (σ t)
              (exec ++ [(⟨i, res i, false⟩ : ExecEntry E)]).length := by
          intro hmem
          rw [show (selfAcc || decide
              (((exec ++ [(⟨i, res i, false⟩ : ExecEntry E)]).length - 1)
                ∈ raceChoice (σ t)
                  (exec ++ [(⟨i, res i, false⟩ : ExecEntry E)]).length)) = true
            from by simp only [Bool.or_eq_true, decide_eq_true_eq]; exact Or.inr hmem] at hrun2
          rw [pclAux_selfSettled_mono] at hrun2
          cases hrun2
        have hllt : (settleStep (exec ++ [(⟨i, res i, false⟩ : ExecEntry E)])
            (raceChoice (σ t)
              (exec ++ [(⟨i, res i, false⟩ : ExecEntry E)]).length) i).length
            < limit := by
          have := settleStep_length_lt
            (raceChoice_exists (σ t)
              (exec ++ [(⟨i, res i, false⟩ : ExecEntry E)]).length (by simp))
            hcur hlast
          omega
        exact ih _ (t + 1) _ (i :: startedRev) _
          (settleStep_all_unsettled hset2 hcur hlast) hidx2 hpwr hllt hmax2 hrun2
      · rcases eo with e | u
        · rw [hh] at hrun
          exact hmax2
        · rw [hh] at hrun
          have hrun2 : (pclAux res limit σ rest
              (settleStep (exec ++ [(⟨i, res i, false⟩ : ExecEntry E)])
                (raceChoice (σ t)
                  (exec ++ [(⟨i, res i, false⟩ : ExecEntry E)]).length) i)
              (t + 1)
              (max maxIF (pendCount (exec ++ [(⟨i, res i, false⟩ : ExecEntry E)])))
              (i :: startedRev)
              (selfAcc || decide
                (((exec ++ [(⟨i, res i, false⟩ : ExecEntry E)]).length - 1)
                  ∈ raceChoice (σ t)
                    (exec ++ [(⟨i, res i, false⟩ : ExecEntry E)]).length))).selfSettled
              = false := hrun
          have hlast : ((exec ++ [(⟨i, res i, false⟩ : ExecEntry E)]).length - 1)
              ∉ raceChoice (σ t)
                (exec ++ [(⟨i, res i, false⟩ : ExecEntry E)]).length := by
            intro hmem
            rw [show (selfAcc || decide
                (((exec ++ [(⟨i, res i, false⟩ : ExecEntry E)]).length - 1)
                  ∈ raceChoice (σ t)
                    (exec ++ [(⟨i, res i, false⟩ : ExecEntry E)]).length)) = true
              from by simp only [Bool.or_eq_true, decide_eq_true_eq]; exact Or.inr hmem] at hrun2
            rw [pclAux_selfSettled_mono] at hrun2
            cases hrun2
          have hllt : (settleStep (exec ++ [(⟨i, res i, false⟩ : ExecEntry E)])
              (raceChoice (σ t)
                (exec ++ [(⟨i, res i, false⟩ : ExecEntry E)]).length) i).length
              < limit := by
            have := settleStep_length_lt
              (raceChoice_exists (σ t)
                (exec ++ [(⟨i, res i, false⟩ : ExecEntry E)]).length (by simp))
              hcur hlast
            omega
          exact ih _ (t + 1) _ (i :: startedRev) _
            (settleStep_all_unsettled hset2 hcur hlast) hidx2 hpwr hllt hmax2 hrun2
    · rw [if_neg hrace] at hrun ⊢
      refine ih _ t _ (i :: startedRev) selfAcc hset2 ?_ hpwr (by
        simp only [List.length_append, List.length_cons, List.length_nil,
          ge_iff_le, not_le] at hrace ⊢
        omega) hmax2 hrun
      intro en hen j hj
      rcases List.mem_append.mp hen with h | h
      · exact hidx en h j (List.mem_cons_of_mem _ hj)
      · simp only [List.mem_singleton] at h
        rw [h]
        exact (List.pairwise_cons.mp hpw).1 j hj

/-- When every pending and future worker succeeds, no race ever rejects —
neither via a fresh settlement nor via a lingering settled promise — and the
loop starts every item. -/
theorem pclAux_allok (res : Nat → Except E Unit) (limit : Nat) (σ : Nat → List Nat) :
    ∀ (items : List Nat) (exec : List (ExecEntry E)) (t maxIF : Nat)
      (startedRev : List Nat) (selfAcc : Bool),
      (∀ en ∈ exec, en.res = .ok ()) → (∀ i ∈ items, res i = .ok ()) →
      (pclAux res limit σ items exec t maxIF startedRev selfAcc).thrown = none ∧
      (pclAux res limit σ items exec t maxIF startedRev selfAcc).started =
        startedRev.reverse ++ items := by
  intro items
  induction items with
  | nil =>
    intro exec t maxIF startedRev selfAcc _ _
    simp [pclAux]
  | cons i rest ih =>
    intro exec t maxIF startedRev selfAcc hok hitems
    have hok2 : ∀ en ∈ exec ++ [(⟨i, res i, false⟩ : ExecEntry E)],
        en.res = Except.ok () := by
      intro en hen
      rcases List.mem_append.mp hen with h | h
      · exact hok en h
      · simp only [List.mem_singleton] at h
        rw [h]
        exact hitems i (List.mem_cons_self _ _)
    have hrest : ∀ j ∈ rest, res j = Except.ok () :=
      fun j hj => hitems j (List.mem_cons_of_mem _ hj)
    have hsettle : ∀ (pend : List (ExecEntry E)) (choice : List Nat),
        (∀ en ∈ pend, en.res = Except.ok ()) →
        ∀ en2 ∈ settleStep pend choice i, en2.res = Except.ok () := by
      intro pend choice hp en2 hen2
      obtain ⟨en, hen, -, hres⟩ := settleStep_subset hen2
      rw [hres]
      exact hp en hen
    have hcons : ∀ (r : PCLRun E),
        r.started = (i :: startedRev).reverse ++ rest →
        r.started = startedRev.reverse ++ (i :: rest) := by
      intro r h
      rw [h]
      simp
    simp only [pclAux]
    by_cases hrace : (exec ++ [(⟨i, res i, false⟩ : ExecEntry E)]).length ≥ limit
    · rw [if_pos hrace]
      rcases hfind : (exec ++ [(⟨i, res i, false⟩ : ExecEntry E)]).find?
          (fun en => en.settled) with _ | ⟨sa, so, sb⟩
      · rw [hfind]
        rcases hh : (extractIdx (exec ++ [(⟨i, res i, false⟩ : ExecEntry E)])
            (raceChoice (σ t)
              (exec ++ [(⟨i, res i, false⟩ : ExecEntry E)]).length)).head?
            with _ | ⟨ea, eo, eb⟩
        · obtain ⟨h1, h2⟩ := ih (settleStep
              (exec ++ [(⟨i, res i, false⟩ : ExecEntry E)])
              (raceChoice (σ t)
                (exec ++ [(⟨i, res i, false⟩ : ExecEntry E)]).length) i) (t + 1)
            (max maxIF (pendCount (exec ++ [(⟨i, res i, false⟩ : ExecEntry E)])))
            (i :: startedRev) _ (hsettle _ _ hok2) hrest
          exact ⟨h1, hcons _ h2⟩
        · rcases eo with e | u
          · have hmem : (⟨ea, Except.error e, eb⟩ : ExecEntry E) ∈
                exec ++ [(⟨i, res i, false⟩ : ExecEntry E)] :=
              extractIdx_subset (List.mem_of_mem_head? (by rw [hh]; simp))
            have := hok2 _ hmem
            simp at this
          · obtain ⟨h1, h2⟩ := ih (settleStep
                (exec ++ [(⟨i, res i, false⟩ : ExecEntry E)])
                (raceChoice (σ t)
                  (exec ++ [(⟨i, res i, false⟩ : ExecEntry E)]).length) i) (t + 1)
              (max maxIF (pendCount (exec ++ [(⟨i, res i, false⟩ : ExecEntry E)])))
              (i :: startedRev) _ (hsettle _ _ hok2) hrest
            exact ⟨h1, hcons _ h2⟩
      · have hs : so = Except.ok () :=
          hok2 _ (List.mem_of_find?_eq_some hfind)
        subst hs
        rw [hfind]
        have hpendok : ∀ en ∈ (exec ++ [(⟨i, res i, false⟩ : ExecEntry E)]).filter
            (fun en => !en.settled), en.res = Except.ok () :=
          fun en hen => hok2 en (List.mem_of_mem_filter hen)
        obtain ⟨h1, h2⟩ := ih (settleStep
            ((exec ++ [(⟨i, res i, false⟩ : ExecEntry E)]).filter
              (fun en => !en.settled))
            (idleChoice (σ t)
              (((exec ++ [(⟨i, res i, false⟩ : ExecEntry E)]).filter
                (fun en => !en.settled)).length)) i) (t + 1)
          (max maxIF (pendCount (exec ++ [(⟨i, res i, false⟩ : ExecEntry E)])))
          (i :: startedRev) _ (hsettle _ _ hpendok) hrest
        exact ⟨h1, hcons _ h2⟩
    · rw [if_neg hrace]
      obtain ⟨h1, h2⟩ := ih (exec ++ [(⟨i, res i, false⟩ : ExecEntry E)]) t
        (max maxIF (pendCount (exec ++ [(⟨i, res i, false⟩ : ExecEntry E)])))
        (i :: startedRev) selfAcc hok2 hrest
      exact ⟨h1, hcons _ h2⟩

/-- With the pending promises and remaining items together below the limit,
no race ever happens: every item is started and nothing is thrown, whatever
the worker outcomes. -/
theorem pclAux_small (res : Nat → Except E Unit) (limit : Nat) (σ : Nat → List Nat) :
    ∀ (items : List Nat) (exec : List (ExecEntry E)) (t maxIF : Nat)
      (startedRev : List Nat) (selfAcc : Bool),
      exec.length + items.length < limit →
      (pclAux res limit σ items exec t maxIF startedRev selfAcc).thrown = none ∧
      (pclAux res limit σ items exec t maxIF startedRev selfAcc).started =
        startedRev.reverse ++ items := by
  intro items
  induction items with
  | nil =>
    intro exec t maxIF startedRev selfAcc _
    simp [pclAux]
  | cons i rest ih =>
    intro exec t maxIF startedRev selfAcc hsmall
    have hlen : ¬ (exec ++ [(⟨i, res i, false⟩ : ExecEntry E)]).length ≥ limit := by
      simp only [List.length_append, List.length_cons, List.length_nil]
      simp only [List.length_cons] at hsmall
      omega
    simp only [pclAux]
    rw [if_neg hlen]
    obtain ⟨h1, h2⟩ := ih (exec ++ [(⟨i, res i, false⟩ : ExecEntry E)]) t
      (max maxIF (pendCount (exec ++ [(⟨i, res i, false⟩ : ExecEntry E)])))
      (i :: startedRev) selfAcc (by
        simp only [List.length_append, List.length_cons, List.length_nil]
        simp only [List.length_cons] at hsmall
        omega)
    refine ⟨h1, ?_⟩
    rw [h2]
    simp

/-- The started list always extends the accumulator with the items actually
begun, and the first remaining item is always begun. -/
theorem pclAux_started (res : Nat → Except E Unit) (limit : Nat) (σ : Nat → List Nat) :
    ∀ (items : List Nat) (exec : List (ExecEntry E)) (t maxIF : Nat)
      (startedRev : List Nat) (selfAcc : Bool),
      ∃ suf, (pclAux res limit σ items exec t maxIF startedRev selfAcc).started =
          startedRev.reverse ++ suf ∧
        (items = [] → suf = []) ∧
        (∀ j js, items = j :: js → suf.head? = some j) := by
  intro items
  induction items with
  | nil =>
    intro exec t maxIF startedRev selfAcc
    refine ⟨[], by simp [pclAux], fun _ => rfl, ?_⟩
    intro j js h
    cases h
  | cons i rest ih =>
    intro exec t maxIF startedRev selfAcc
    have hcons : ∀ suf : List Nat,
        ((i :: rest = ([] : List Nat) → i :: suf = []) ∧
         (∀ j js, i :: rest = j :: js → (i :: suf).head? = some j)) := by
      intro suf
      constructor
      · intro h
        exact absurd h (List.cons_ne_nil _ _)
      · intro j js h
        injection h with hij hrest
        subst hij
        simp
    have hlift : ∀ (r : PCLRun E) (suf : List Nat),
        r.started = (i :: startedRev).reverse ++ suf →
        r.started = startedRev.reverse ++ (i :: suf) := by
      intro r suf h
      rw [h]
      simp
    simp only [pclAux]
    by_cases hrace : (exec ++ [(⟨i, res i, false⟩ : ExecEntry E)]).length ≥ limit
    · rw [if_pos hrace]
      rcases hfind : (exec ++ [(⟨i, res i, false⟩ : ExecEntry E)]).find?
          (fun en => en.settled) with _ | ⟨sa, so, sb⟩
      · rw [hfind]
        rcases hh : (extractIdx (exec ++ [(⟨i, res i, false⟩ : ExecEntry E)])
            (raceChoice (σ t)
              (exec ++ [(⟨i, res i, false⟩ : ExecEntry E)]).length)).head?
            with _ | ⟨ea, eo, eb⟩
        · obtain ⟨suf, h1, -, -⟩ := ih (settleStep
              (exec ++ [(⟨i, res i, false⟩ : ExecEntry E)])
              (raceChoice (σ t)
                (exec ++ [(⟨i, res i, false⟩ : ExecEntry E)]).length) i) (t + 1)
            (max maxIF (pendCount (exec ++ [(⟨i, res i, false⟩ : ExecEntry E)])))
            (i :: startedRev)
            (selfAcc || decide
              (((exec ++ [(⟨i, res i, false⟩ : ExecEntry E)]).length - 1)
                ∈ raceChoice (σ t)
                  (exec ++ [(⟨i, res i, false⟩ : ExecEntry E)]).length))
          exact ⟨i :: suf, hlift _ suf h1, (hcons suf).1, (hcons suf).2⟩
        · rcases eo with e | u
          · refine ⟨[i], ?_, (hcons []).1, (hcons []).2⟩
            simp
          · obtain ⟨suf, h1, -, -⟩ := ih (settleStep
                (exec ++ [(⟨i, res i, false⟩ : ExecEntry E)])
                (raceChoice (σ t)
                  (exec ++ [(⟨i, res i, false⟩ : ExecEntry E)]).length) i) (t + 1)
              (max maxIF (pendCount (exec ++ [(⟨i, res i, false⟩ : ExecEntry E)])))
              (i :: startedRev)
              (selfAcc || decide
                (((exec ++ [(⟨i, res i, false⟩ : ExecEntry E)]).length - 1)
                  ∈ raceChoice (σ t)
                    (exec ++ [(⟨i, res i, false⟩ : ExecEntry E)]).length))
            exact ⟨i :: suf, hlift _ suf h1, (hcons suf).1, (hcons suf).2⟩
      · rcases so with e | u
        · rw [hfind]
          refine ⟨[i], ?_, (hcons []).1, (hcons []).2⟩
          simp
        · rw [hfind]
          obtain ⟨suf, h1, -, -⟩ := ih (settleStep
              ((exec ++ [(⟨i, res i, false⟩ : ExecEntry E)]).filter
                (fun en => !en.settled))
              (idleChoice (σ t)
                (((exec ++ [(⟨i, res i, false⟩ : ExecEntry E)]).filter
                  (fun en => !en.settled)).length)) i) (t + 1)
            (max maxIF (pendCount (exec ++ [(⟨i, res i, false⟩ : ExecEntry E)])))
            (i :: startedRev)
            (selfAcc || decide
              (((((exec ++ [(⟨i, res i, false⟩ : ExecEntry E)]).filter
                  (fun en => !en.settled)).length) - 1)
                ∈ idleChoice (σ t)
                    (((exec ++ [(⟨i, res i, false⟩ : ExecEntry E)]).filter
                      (fun en => !en.settled)).length)))
          exact ⟨i :: suf, hlift _ suf h1, (hcons suf).1, (hcons suf).2⟩
    · rw [if_neg hrace]
      obtain ⟨suf, h1, -, -⟩ := ih (exec ++ [(⟨i, res i, false⟩ : ExecEntry E)]) t
        (max maxIF (pendCount (exec ++ [(⟨i, res i, false⟩ : ExecEntry E)])))
        (i :: startedRev) selfAcc
      exact ⟨i :: suf, hlift _ suf h1, (hcons suf).1, (hcons suf).2⟩

/-- Claim C3 (amended): for any worker outcomes and schedule, on runs in
which no worker settles during the race of its own iteration (as is the case
for workers performing genuine asynchronous work), at most `limit` worker
invocations are in flight at any instant (workers start in input order by
the loop structure); when no worker fails — or when fewer items than the
limit are submitted, so that no race ever happens — every item is started
and the call resolves with nothing thrown, only after all pending workers
settle at the final `allSettled`.  The unamended claim fails twice: a worker
failure at a race point propagates out (see the counterexample), and a
worker that settles during its own race lingers settled in `executing`,
letting the next race resolve without any fresh settlement, so the in-flight
count can exceed the limit — with limit 1 and an immediately-settling first
worker, two workers are in flight simultaneously, as the last conjunct
exhibits. -/
theorem processWithConcurrencyLimit_amended (E : Type) (res : Nat → Except E Unit)
    (n limit : Nat) (σ : Nat → List Nat) (hlim : 1 ≤ limit) :
    ((processWithConcurrencyLimit res n limit σ).selfSettled = false →
      (processWithConcurrencyLimit res n limit σ).maxInFlight ≤ limit) ∧
    ((∀ i, i < n → res i = .ok ()) →
      (processWithConcurrencyLimit res n limit σ).thrown = none ∧
      (processWithConcurrencyLimit res n limit σ).started = List.range n) ∧
    (n < limit →
      (processWithConcurrencyLimit res n limit σ).thrown = none ∧
      (processWithConcurrencyLimit res n limit σ).started = List.range n) ∧
    ((processWithConcurrencyLimit (E := Unit) (fun _ => .ok ()) 3 1
        (fun _ => [])).maxInFlight = 2 ∧
      1 < (processWithConcurrencyLimit (E := Unit) (fun _ => .ok ()) 3 1
        (fun _ => [])).maxInFlight) := by
  refine ⟨?_, ?_, ?_, by decide, by decide⟩
  · intro hrun
    exact pclAux_bound res limit σ (List.range n) [] 0 0 [] false
      (by intro en hen; cases hen) (by intro en hen; cases hen)
      (List.pairwise_lt_range n) (by simpa using hlim) (by omega) hrun
  · intro hok
    have := pclAux_allok res limit σ (List.range n) [] 0 0 [] false
      (by intro en hen; cases hen) (fun i hi => hok i (List.mem_range.mp hi))
    simpa using this
  · intro hn
    have := pclAux_small res limit σ (List.range n) [] 0 0 [] false
      (by simpa using hn)
    simpa using this

/-- Witness instantiating `processWithConcurrencyLimit_amended` at limit 2
with 5 all-successful items under the oldest-settles-first schedule: the run
never self-settles, the in-flight bound holds and all five start. -/
theorem processWithConcurrencyLimit_amended_witness :
    (processWithConcurrencyLimit (E := Unit) (fun _ => .ok ()) 5 2
      (fun _ => [])).selfSettled = false ∧
    (processWithConcurrencyLimit (E := Unit) (fun _ => .ok ()) 5 2
      (fun _ => [])).maxInFlight ≤ 2 ∧
    (processWithConcurrencyLimit (E := Unit) (fun _ => .ok ()) 5 2
      (fun _ => [])).started = List.range 5 := by
  obtain ⟨h1, h2, -, -⟩ := processWithConcurrencyLimit_amended Unit
    (fun _ => .ok ()) 5 2 (fun _ => []) (by decide)
  exact ⟨by decide, h1 (by decide), (h2 (fun i _ => rfl)).2⟩

/-- Counterexample to claim C3 as stated: with `limit = 1` and the first
worker failing, the race rejects, `processWithConcurrencyLimit` propagates
the failure (short-circuiting on an individual worker failure) and the
second item is never started. -/
theorem processWithConcurrencyLimit_short_circuits :
    (processWithConcurrencyLimit (fun i => if i = 0 then .error () else .ok ())
      2 1 (fun _ => [])).thrown = some () ∧
    (processWithConcurrencyLimit (fun i => if i = 0 then .error () else .ok ())
      2 1 (fun _ => [])).started = [0] ∧
    [0] ≠ List.range 2 := by
  refine ⟨rfl, rfl, by decide⟩

/-- Claim C8 (amended): with an empty items list the executor resolves
without invoking the worker at all; but with `limit = 0` and a non-empty
items list the worker is invoked — the first item is always started — so
the unamended claim fails (see the counterexample). -/
theorem processWithConcurrencyLimit_edge (E : Type) (res : Nat → Except E Unit)
    (limit : Nat) (σ : Nat → List Nat) :
    (processWithConcurrencyLimit res 0 limit σ = ⟨none, [], 0, false⟩) ∧
    (∀ n, 0 < n →
      (processWithConcurrencyLimit res n 0 σ).started.head? = some 0) := by
  constructor
  · rfl
  · intro n hn
    obtain ⟨m, rfl⟩ : ∃ m, n = m + 1 := ⟨n - 1, by omega⟩
    obtain ⟨suf, h1, -, h3⟩ := pclAux_started res 0 σ (List.range (m + 1))
      [] 0 0 [] false
    have hr : List.range (m + 1) = 0 :: (List.range m).map Nat.succ :=
      List.range_succ_eq_map m
    have := h3 0 ((List.range m).map Nat.succ) hr
    rw [processWithConcurrencyLimit, h1]
    simpa using this

/-- Witness instantiating `processWithConcurrencyLimit_edge`: one item at
limit 0 still starts its worker. -/
theorem processWithConcurrencyLimit_edge_witness :
    (processWithConcurrencyLimit (E := Unit) (fun _ => .ok ()) 0 3 (fun _ => [])
        = ⟨none, [], 0, false⟩) ∧
    (processWithConcurrencyLimit (E := Unit) (fun _ => .ok ()) 1 0
      (fun _ => [])).started.head? = some 0 := by
  obtain ⟨h1, h2⟩ := processWithConcurrencyLimit_edge Unit (fun _ => .ok ()) 3
    (fun _ => [])
  exact ⟨h1, h2 1 (by decide)⟩

/-- Counterexample to claim C8 as stated: `limit = 0` with one item does not
resolve without invoking the worker — the single worker is invoked. -/
theorem processWithConcurrencyLimit_limit_zero_invokes :
    (processWithConcurrencyLimit (E := Unit) (fun _ => .ok ()) 1 0
      (fun _ => [])).started = [0] ∧
    ([0] : List Nat) ≠ [] := by
  exact ⟨rfl, by decide⟩


/-! ## Grouping invariants of the batch orchestrator -/

/-- All `(original index, receipt)` pairs stored across the buckets. -/
def allEntries (gs : List (String × List (Nat × Receipt))) : List (Nat × Receipt) :=
  (gs.map Prod.snd).flatten

/-- All original indices stored across the buckets, bucket by bucket. -/
def allIdx (gs : List (String × List (Nat × Receipt))) : List Nat :=
  (gs.map (fun g => g.2.map Prod.fst)).flatten

theorem allEntries_nil : allEntries [] = [] := rfl

theorem allEntries_cons (k : String) (ps : List (Nat × Receipt))
    (rest : List (String × List (Nat × Receipt))) :
    allEntries ((k, ps) :: rest) = ps ++ allEntries rest := by
  simp [allEntries]

theorem allIdx_eq_map (gs : List (String × List (Nat × Receipt))) :
    allIdx gs = (allEntries gs).map Prod.fst := by
  simp only [allIdx, allEntries, List.map_flatten, List.map_map]
  rfl

/-- Inserting a pair adds exactly that pair to the stored entries. -/
theorem insertGroup_entries (name : String) (p : Nat × Receipt) :
    ∀ acc, (allEntries (insertGroup acc name p)).Perm (allEntries acc ++ [p]) := by
  intro acc
  induction acc with
  | nil => simp [insertGroup, allEntries]
  | cons hd rest ih =>
    rcases hd with ⟨k, ps⟩
    by_cases hk : k = name
    · simp only [insertGroup, hk, if_pos]
      rw [allEntries_cons, allEntries_cons, List.append_assoc, List.append_assoc]
      exact List.Perm.append_left ps List.perm_append_comm
    · simp only [insertGroup, hk, if_false]
      rw [allEntries_cons, allEntries_cons, List.append_assoc]
      exact List.Perm.append_left ps ih

/-- Folding insertions over a pair list adds exactly those pairs. -/
theorem foldl_insert_entries (keyf : Nat × Receipt → String) :
    ∀ (pairs : List (Nat × Receipt)) (acc : List (String × List (Nat × Receipt))),
      (allEntries (pairs.foldl (fun a p => insertGroup a (keyf p) p) acc)).Perm
        (allEntries acc ++ pairs) := by
  intro pairs
  induction pairs with
  | nil => intro acc; simp
  | cons p ps ih =>
    intro acc
    simp only [List.foldl_cons]
    refine (ih (insertGroup acc (keyf p) p)).trans ?_
    refine ((insertGroup_entries (keyf p) p acc).append_right ps).trans ?_
    have heq : (allEntries acc ++ [p]) ++ ps = allEntries acc ++ (p :: ps) := by
      simp
    rw [heq]

/-- The grouping stores exactly the enumerated receipts. -/
theorem groupBySheet_entries (denv : DateEnv) (rs : List Receipt) :
    (allEntries (groupBySheet denv rs)).Perm rs.enum := by
  have h := foldl_insert_entries
    (fun p => getSheetNameFromDate denv p.2.date) rs.enum []
  simpa [groupBySheet, allEntries_nil] using h

/-- The indices stored across the buckets are a permutation of `0..n-1`. -/
theorem groupBySheet_idx_perm (denv : DateEnv) (rs : List Receipt) :
    (allIdx (groupBySheet denv rs)).Perm (List.range rs.length) := by
  rw [allIdx_eq_map, ← List.enum_map_fst rs]
  exact (groupBySheet_entries denv rs).map Prod.fst

/-- Every stored index is a valid position in the input batch. -/
theorem groupBySheet_idx_lt (denv : DateEnv) (rs : List Receipt) :
    ∀ i ∈ allIdx (groupBySheet denv rs), i < rs.length := by
  intro i hi
  exact List.mem_range.mp (((groupBySheet_idx_perm denv rs).mem_iff).mp hi)

/-- The stored indices carry no duplicates. -/
theorem groupBySheet_idx_nodup (denv : DateEnv) (rs : List Receipt) :
    (allIdx (groupBySheet denv rs)).Nodup :=
  ((groupBySheet_idx_perm denv rs).nodup_iff).mpr (List.nodup_range _)

/-- Buckets of the accumulator all hold strictly increasing index lists. -/
def bucketsSorted (gs : List (String × List (Nat × Receipt))) : Prop :=
  ∀ g ∈ gs, (g.2.map Prod.fst).Pairwise (· < ·)

/-- Inserting a pair larger than everything stored preserves sortedness. -/
theorem insertGroup_sorted (name : String) (p : Nat × Receipt) :
    ∀ acc, bucketsSorted acc → (∀ q ∈ allEntries acc, q.1 < p.1) →
      bucketsSorted (insertGroup acc name p) := by
  intro acc
  induction acc with
  | nil =>
    intro _ _ g hg
    simp only [insertGroup, List.mem_singleton] at hg
    subst hg
    simp
  | cons hd rest ih =>
    rcases hd with ⟨k, ps⟩
    intro hsort hbound
    by_cases hk : k = name
    · simp only [insertGroup, hk, if_pos]
      intro g hg
      rcases List.mem_cons.mp hg with h | h
      · subst h
        simp only [List.map_append, List.map_cons, List.map_nil]
        rw [List.pairwise_append]
        refine ⟨hsort (k, ps) (List.mem_cons_self _ _), by simp, ?_⟩
        intro a ha b hb
        simp only [List.mem_singleton] at hb
        subst hb
        obtain ⟨q, hq, rfl⟩ := List.mem_map.mp ha
        refine hbound q ?_
        rw [allEntries_cons]
        exact List.mem_append_left _ hq
      · exact hsort g (List.mem_cons_of_mem _ h)
    · simp only [insertGroup, hk, if_neg]
      intro g hg
      rcases List.mem_cons.mp hg with h | h
      · subst h
        exact hsort (k, ps) (List.mem_cons_self _ _)
      · refine ih (fun g2 hg2 => hsort g2 (List.mem_cons_of_mem _ hg2))
          (fun q hq => hbound q ?_) g h
        rw [allEntries_cons]
        exact List.mem_append_right _ hq

/-- Folding insertions of pairs with strictly increasing indices, all above
everything already stored, keeps every bucket strictly increasing. -/
theorem foldl_insert_sorted (keyf : Nat × Receipt → String) :
    ∀ (pairs : List (Nat × Receipt)) (acc : List (String × List (Nat × Receipt))),
      bucketsSorted acc →
      (∀ q ∈ allEntries acc, ∀ p ∈ pairs, q.1 < p.1) →
      (pairs.map Prod.fst).Pairwise (· < ·) →
      bucketsSorted (pairs.foldl (fun a p => insertGroup a (keyf p) p) acc) := by
  intro pairs
  induction pairs with
  | nil => intro acc h _ _; simpa using h
  | cons p ps ih =>
    intro acc hsort hbound hpw
    simp only [List.foldl_cons]
    have hpw' := hpw
    simp only [List.map_cons, List.pairwise_cons] at hpw'
    refine ih (insertGroup acc (keyf p) p)
      (insertGroup_sorted (keyf p) p acc hsort
        (fun q hq => hbound q hq p (List.mem_cons_self _ _))) ?_ hpw'.2
    intro q hq p2 hp2
    have hmem := ((insertGroup_entries (keyf p) p acc).mem_iff).mp hq
    rcases List.mem_append.mp hmem with h | h
    · exact hbound q h p2 (List.mem_cons_of_mem _ hp2)
    · simp only [List.mem_singleton] at h
      subst h
      exact hpw'.1 p2.1 (List.mem_map_of_mem Prod.fst hp2)

/-- Each destination group's index list is strictly increasing: grouping
preserves the original relative order within a bucket. -/
theorem groupBySheet_sorted (denv : DateEnv) (rs : List Receipt) :
    ∀ g ∈ groupBySheet denv rs, (g.2.map Prod.fst).Pairwise (· < ·) := by
  have h := foldl_insert_sorted (fun p => getSheetNameFromDate denv p.2.date)
    rs.enum []
    (by intro g hg; cases hg)
    (by intro q hq; rw [allEntries_nil] at hq; cases hq)
    (by rw [List.enum_map_fst]; exact List.pairwise_lt_range _)
  exact h

/-! ## Completion order and the results-array fold -/

/-- The sanitised completion order is a permutation of the group positions. -/
theorem completionOrder_perm (π : List Nat) (len : Nat) :
    (completionOrder π len).Perm (List.range len) := by
  simp only [completionOrder]
  have hnd : ((π.filter (fun j => j < len)).dedup).Nodup := List.nodup_dedup _
  have hsub : ∀ j ∈ (π.filter (fun j => j < len)).dedup, j < len := by
    intro j hj
    exact of_decide_eq_true (List.mem_filter.mp (List.mem_dedup.mp hj)).2
  have h1 : ((π.filter (fun j => j < len)).dedup).Perm
      ((List.range len).filter (fun j => j ∈ (π.filter (fun j => j < len)).dedup)) := by
    rw [List.perm_ext_iff_of_nodup hnd ((List.nodup_range len).filter _)]
    intro a
    simp only [List.mem_filter, List.mem_range, decide_eq_true_eq]
    exact ⟨fun h => ⟨hsub a h, h⟩, fun h => h.2⟩
  refine (h1.append_right _).trans ?_
  have h2 : (List.range len).filter
        (fun j => j ∉ (π.filter (fun j => j < len)).dedup)
      = (List.range len).filter
        (fun j => !(decide (j ∈ (π.filter (fun j => j < len)).dedup))) := by
    apply List.filter_congr
    intro a _
    simp only [decide_not]
  rw [h2]
  exact List.filter_append_perm _ _

/-- Reading back every position of a list yields the list. -/
theorem range_filterMap_get (xs : List α) :
    (List.range xs.length).filterMap (fun j => xs.get? j) = xs := by
  induction xs with
  | nil => simp
  | cons x rest ih =>
    rw [List.length_cons, List.range_succ_eq_map]
    rw [List.filterMap_cons_some (rfl : (x :: rest).get? 0 = some x)]
    rw [List.filterMap_map]
    have hc : ((fun j => (x :: rest).get? j) ∘ Nat.succ) = fun j => rest.get? j := by
      funext j
      rfl
    rw [hc, ih]

/-- The groups, traversed in any sanitised completion order, are a
permutation of the group list. -/
theorem completionOrder_groups_perm (π : List Nat)
    (gs : List (String × List (Nat × Receipt))) :
    ((completionOrder π gs.length).filterMap (fun j => gs.get? j)).Perm gs := by
  refine ((completionOrder_perm π gs.length).filterMap _).trans ?_
  rw [range_filterMap_get]

/-- The fold writing a list of `(position, entry)` pairs into the results
array. -/
def sfold (pairs : List (Nat × OutcomeEntry)) (r : List (Option OutcomeEntry)) :
    List (Option OutcomeEntry) :=
  pairs.foldl (fun r q => r.set q.1 (some q.2)) r

theorem sfold_length (pairs : List (Nat × OutcomeEntry)) :
    ∀ r, (sfold pairs r).length = r.length := by
  induction pairs with
  | nil => intro r; rfl
  | cons q qs ih =>
    intro r
    simp only [sfold, List.foldl_cons] at ih ⊢
    rw [ih]
    exact List.length_set r q.1 (some q.2)

theorem sfold_get_ne (pairs : List (Nat × OutcomeEntry)) :
    ∀ r i, i ∉ pairs.map Prod.fst → (sfold pairs r).get? i = r.get? i := by
  induction pairs with
  | nil => intro r i _; rfl
  | cons q qs ih =>
    intro r i hi
    simp only [List.map_cons, List.mem_cons, not_or] at hi
    simp only [sfold, List.foldl_cons] at ih ⊢
    rw [ih _ i hi.2, List.get?_set_ne _ _ (fun h => hi.1 h.symm)]

theorem sfold_get_mem (pairs : List (Nat × OutcomeEntry)) :
    ∀ r i e, (pairs.map Prod.fst).Nodup → (i, e) ∈ pairs → i < r.length →
      (sfold pairs r).get? i = some (some e) := by
  induction pairs with
  | nil => intro r i e _ h _; cases h
  | cons q qs ih =>
    intro r i e hnd hmem hlen
    simp only [List.map_cons, List.nodup_cons] at hnd
    rcases List.mem_cons.mp hmem with h | h
    · cases h
      simp only [sfold, List.foldl_cons]
      have hni : i ∉ qs.map Prod.fst := hnd.1
      rw [show List.foldl (fun r q => r.set q.1 (some q.2)) (r.set i (some e)) qs
          = sfold qs (r.set i (some e)) from rfl]
      rw [sfold_get_ne qs _ i hni]
      rw [List.get?_set_eq, List.get?_eq_get hlen]
      rfl
    · simp only [sfold, List.foldl_cons]
      refine ih _ i e hnd.2 h ?_
      rw [List.length_set]
      exact hlen

theorem sfold_INV (pairs : List (Nat × OutcomeEntry)) :
    ∀ r, (∀ q ∈ pairs, q.2.index = q.1) →
      (∀ j x, r.get? j = some (some x) → x.index = j) →
      (∀ j x, (sfold pairs r).get? j = some (some x) → x.index = j) := by
  induction pairs with
  | nil => intro r _ hr; exact hr
  | cons q qs ih =>
    intro r hidx hr
    simp only [sfold, List.foldl_cons]
    refine ih _ (fun p hp => hidx p (List.mem_cons_of_mem _ hp)) ?_
    intro j x hj
    by_cases hq : q.1 = j
    · subst hq
      rw [List.get?_set_eq] at hj
      rcases hget : r.get? q.1 with _ | v
      · rw [hget] at hj; cases hj
      · rw [hget] at hj
        simp only [Option.map_some] at hj
        cases hj
        exact hidx q (List.mem_cons_self _ _)
    · rw [List.get?_set_ne _ _ hq] at hj
      exact hr j x hj

theorem rowsOf_length (receipts : List Receipt) :
    (rowsOf receipts).length = receipts.length := by
  simp [rowsOf]

/-- On a present target id and a successful remote append, `batchWriteToSheet`
returns one success per row with row numbers `startRow + offset`. -/
theorem batchWriteToSheet_ok (remote : RemoteAppend) (spid envId : Option String)
    (name : String) (receipts : List Receipt) (tid : String) (resp : AppendOk)
    (htid : jsOrOpt spid envId = some tid)
    (hok : remote name (rowsOf receipts) = .ok resp) :
    batchWriteToSheet remote spid envId name receipts =
      .ok ((List.range receipts.length).map
        (fun k => ⟨true, startRowOf resp.updatedRange + k⟩)) := by
  simp [batchWriteToSheet, htid, hok, rowsOf_length]

/-- A successful `batchWriteToSheet` returns exactly one result per receipt. -/
theorem batchWriteToSheet_length (remote : RemoteAppend) (spid envId : Option String)
    (name : String) (receipts : List Receipt) (ws : List WriteResult)
    (h : batchWriteToSheet remote spid envId name receipts = .ok ws) :
    ws.length = receipts.length := by
  unfold batchWriteToSheet at h
  cases htid : jsOrOpt spid envId with
  | none => rw [htid] at h; cases h
  | some tid =>
    rw [htid] at h
    cases hrem : remote name (rowsOf receipts) with
    | error e => rw [hrem] at h; cases h
    | ok resp =>
      rw [hrem] at h
      simp only [Except.ok.injEq] at h
      rw [← h]
      simp [rowsOf_length]

/-- Every element of a successful `batchWriteToSheet` result is a success. -/
theorem batchWriteToSheet_ok_success (remote : RemoteAppend)
    (spid envId : Option String) (name : String) (receipts : List Receipt)
    (ws : List WriteResult)
    (h : batchWriteToSheet remote spid envId name receipts = .ok ws) :
    ∀ w ∈ ws, w.success = true := by
  unfold batchWriteToSheet at h
  cases htid : jsOrOpt spid envId with
  | none => rw [htid] at h; cases h
  | some tid =>
    rw [htid] at h
    cases hrem : remote name (rowsOf receipts) with
    | error e => rw [hrem] at h; cases h
    | ok resp =>
      rw [hrem] at h
      simp only [Except.ok.injEq] at h
      rw [← h]
      intro w hw
      obtain ⟨k, -, rfl⟩ := List.mem_map.mp hw
      rfl

theorem zip_map_snd_fst :
    ∀ (ws : List WriteResult) (g2 : List (Nat × Receipt)), ws.length = g2.length →
      (ws.zip g2).map (fun q => q.2.1) = g2.map Prod.fst := by
  intro ws
  induction ws with
  | nil =>
    intro g2 h
    cases g2 with
    | nil => rfl
    | cons p ps => cases h
  | cons w ws ih =>
    intro g2 h
    cases g2 with
    | nil => cases h
    | cons p ps =>
      simp only [List.zip_cons_cons, List.map_cons]
      rw [ih ps (by simpa using h)]

/-- The positions a group's worker writes are exactly the group's original
indices, in group order. -/
theorem groupOutcome_fsts (remote : RemoteAppend) (spid envId : Option String)
    (g : String × List (Nat × Receipt)) :
    (groupOutcome remote spid envId g).map Prod.fst = g.2.map Prod.fst := by
  unfold groupOutcome
  cases h : batchWriteToSheet remote spid envId g.1 (g.2.map Prod.snd) with
  | error e =>
    rw [List.map_map]
    rfl
  | ok ws =>
    rw [List.map_map]
    have hlen : ws.length = g.2.length := by
      have := batchWriteToSheet_length remote spid envId g.1 (g.2.map Prod.snd) ws h
      simpa using this
    exact zip_map_snd_fst ws g.2 hlen

/-- Each written entry carries its own position as its reported index. -/
theorem groupOutcome_index (remote : RemoteAppend) (spid envId : Option String)
    (g : String × List (Nat × Receipt)) :
    ∀ q ∈ groupOutcome remote spid envId g, q.2.index = q.1 := by
  unfold groupOutcome
  cases h : batchWriteToSheet remote spid envId g.1 (g.2.map Prod.snd) with
  | error e =>
    intro q hq
    obtain ⟨p, -, rfl⟩ := List.mem_map.mp hq
    rfl
  | ok ws =>
    intro q hq
    obtain ⟨p, -, rfl⟩ := List.mem_map.mp hq
    rfl

theorem groupOutcome_exists (remote : RemoteAppend) (spid envId : Option String)
    (g : String × List (Nat × Receipt)) (i : Nat) (hi : i ∈ g.2.map Prod.fst) :
    ∃ e, (i, e) ∈ groupOutcome remote spid envId g := by
  rw [← groupOutcome_fsts remote spid envId g] at hi
  obtain ⟨q, hq, hq1⟩ := List.mem_map.mp hi
  refine ⟨q.2, ?_⟩
  rw [show (i, q.2) = q from by rw [← hq1]]
  exact hq

/-- Projection of the counter-updating fold to the results array. -/
theorem foldl_triple_fst {β : Type} (l : List β) (fidx : β → Nat)
    (fe : β → OutcomeEntry) (s1 s2 : β → Nat → Nat) :
    ∀ st : List (Option OutcomeEntry) × Nat × Nat,
      (l.foldl (fun st q =>
        (st.1.set (fidx q) (some (fe q)), s1 q st.2.1, s2 q st.2.2)) st).1
      = l.foldl (fun r q => r.set (fidx q) (some (fe q))) st.1 := by
  induction l with
  | nil => intro st; rfl
  | cons q qs ih =>
    intro st
    simp only [List.foldl_cons]
    exact ih _

/-- The group worker writes exactly its `groupOutcome` pairs into the
results array. -/
theorem applyGroup_results (remote : RemoteAppend) (spid envId : Option String)
    (st : List (Option OutcomeEntry) × Nat × Nat)
    (g : String × List (Nat × Receipt)) :
    (applyGroup remote spid envId st g).1 =
      sfold (groupOutcome remote spid envId g) st.1 := by
  unfold applyGroup groupOutcome
  cases h : batchWriteToSheet remote spid envId g.1 (g.2.map Prod.snd) with
  | error e =>
    rw [show sfold (g.2.map (fun p => (p.1, errEntry p.1 e))) st.1
        = g.2.foldl (fun r p => r.set p.1 (some (errEntry p.1 e))) st.1 from by
      rw [sfold, List.foldl_map]]
    exact foldl_triple_fst g.2 (fun p => p.1) (fun p => errEntry p.1 e)
      (fun _ c => c) (fun _ c => c + 1) st
  | ok ws =>
    rw [show sfold ((ws.zip g.2).map (fun q => (q.2.1, okEntry q.2.1 g.1 q.1))) st.1
        = (ws.zip g.2).foldl
            (fun r q => r.set q.2.1 (some (okEntry q.2.1 g.1 q.1))) st.1 from by
      rw [sfold, List.foldl_map]]
    exact foldl_triple_fst (ws.zip g.2) (fun q => q.2.1)
      (fun q => okEntry q.2.1 g.1 q.1)
      (fun q c => if q.1.success then c + 1 else c)
      (fun q c => if q.1.success then c else c + 1) st

theorem allIdx_cons (g : String × List (Nat × Receipt))
    (gs : List (String × List (Nat × Receipt))) :
    allIdx (g :: gs) = g.2.map Prod.fst ++ allIdx gs := by
  simp [allIdx]

theorem allIdx_append (l1 l2 : List (String × List (Nat × Receipt))) :
    allIdx (l1 ++ l2) = allIdx l1 ++ allIdx l2 := by
  simp [allIdx]

theorem applyGroup_length (remote : RemoteAppend) (spid envId : Option String)
    (st : List (Option OutcomeEntry) × Nat × Nat)
    (g : String × List (Nat × Receipt)) :
    (applyGroup remote spid envId st g).1.length = st.1.length := by
  rw [applyGroup_results]
  exact sfold_length _ _

theorem ofold_length (remote : RemoteAppend) (spid envId : Option String) :
    ∀ (gs : List (String × List (Nat × Receipt)))
      (st : List (Option OutcomeEntry) × Nat × Nat),
      (gs.foldl (applyGroup remote spid envId) st).1.length = st.1.length := by
  intro gs
  induction gs with
  | nil => intro st; rfl
  | cons g rest ih =>
    intro st
    simp only [List.foldl_cons]
    rw [ih, applyGroup_length]

theorem applyGroup_get_ne (remote : RemoteAppend) (spid envId : Option String)
    (st : List (Option OutcomeEntry) × Nat × Nat)
    (g : String × List (Nat × Receipt)) (i : Nat)
    (hi : i ∉ g.2.map Prod.fst) :
    (applyGroup remote spid envId st g).1.get? i = st.1.get? i := by
  rw [applyGroup_results]
  refine sfold_get_ne _ _ i ?_
  rw [groupOutcome_fsts]
  exact hi

theorem ofold_get_ne (remote : RemoteAppend) (spid envId : Option String) :
    ∀ (gs : List (String × List (Nat × Receipt)))
      (st : List (Option OutcomeEntry) × Nat × Nat) (i : Nat), i ∉ allIdx gs →
      (gs.foldl (applyGroup remote spid envId) st).1.get? i = st.1.get? i := by
  intro gs
  induction gs with
  | nil => intro st i _; rfl
  | cons g rest ih =>
    intro st i hi
    rw [allIdx_cons] at hi
    simp only [List.mem_append, not_or] at hi
    simp only [List.foldl_cons]
    rw [ih _ i hi.2, applyGroup_get_ne remote spid envId st g i hi.1]

theorem ofold_INV (remote : RemoteAppend) (spid envId : Option String) :
    ∀ (gs : List (String × List (Nat × Receipt)))
      (st : List (Option OutcomeEntry) × Nat × Nat),
      (∀ j x, st.1.get? j = some (some x) → x.index = j) →
      (∀ j x, (gs.foldl (applyGroup remote spid envId) st).1.get? j =
        some (some x) → x.index = j) := by
  intro gs
  induction gs with
  | nil => intro st h; exact h
  | cons g rest ih =>
    intro st h
    simp only [List.foldl_cons]
    refine ih _ ?_
    intro j x hj
    rw [applyGroup_results] at hj
    exact sfold_INV _ _ (groupOutcome_index remote spid envId g) h j x hj

/-- Value of the final results array at a position belonging to one group:
the entry that group's worker wrote, whatever the completion order around
it. -/
theorem ofold_decomp (remote : RemoteAppend) (spid envId : Option String)
    (pre suf : List (String × List (Nat × Receipt)))
    (g : String × List (Nat × Receipt))
    (st : List (Option OutcomeEntry) × Nat × Nat) (i : Nat) (e : OutcomeEntry)
    (hpre : i ∉ allIdx pre) (hsuf : i ∉ allIdx suf)
    (hnd : (g.2.map Prod.fst).Nodup)
    (hmem : (i, e) ∈ groupOutcome remote spid envId g)
    (hlen : i < st.1.length) :
    ((pre ++ g :: suf).foldl (applyGroup remote spid envId) st).1.get? i =
      some (some e) := by
  rw [List.foldl_append, List.foldl_cons]
  rw [ofold_get_ne remote spid envId suf _ i hsuf]
  rw [applyGroup_results]
  refine sfold_get_mem _ _ i e ?_ hmem ?_
  · rw [groupOutcome_fsts]
    exact hnd
  · rw [ofold_length]
    exact hlen

/-- The provisioning-phase run of `batchWrite` on a given batch. -/
def bwProvRun (denv : DateEnv) (provision : String → Except JsError Unit)
    (limit : Nat) (σ : Nat → List Nat) (rs : List Receipt) : PCLRun JsError :=
  processWithConcurrencyLimit
    (fun i => provision (((groupBySheet denv rs).map Prod.fst).getD i ""))
    ((groupBySheet denv rs).map Prod.fst).length limit σ

/-- The destination groups in worker completion order. -/
def bwOrdered (denv : DateEnv) (π : List Nat) (rs : List Receipt) :
    List (String × List (Nat × Receipt)) :=
  (completionOrder π (groupBySheet denv rs).length).filterMap
    (fun j => (groupBySheet denv rs).get? j)

/-- The final (results, successCount, failureCount) state of the write
phase. -/
def bwState (denv : DateEnv) (remote : RemoteAppend) (spid envId : Option String)
    (π : List Nat) (rs : List Receipt) :
    List (Option OutcomeEntry) × Nat × Nat :=
  (bwOrdered denv π rs).foldl (applyGroup remote spid envId)
    (List.replicate rs.length none, 0, 0)

/-- Unfolding of `batchWrite` on a validation-passing body: the outcome is
decided by whether the provisioning phase rethrew a rejection. -/
theorem batchWrite_valid_cases (denv : DateEnv) (remote : RemoteAppend)
    (provision : String → Except JsError Unit) (envId : Option String)
    (limit : Nat) (σ : Nat → List Nat) (π : List Nat) (rs : List Receipt)
    (spid : Option String)
    (hne : ¬ rs.length = 0) (hval : invalidReceipts rs = []) :
    batchWrite denv remote provision envId limit σ π (some ⟨some rs, spid⟩) =
      match (bwProvRun denv provision limit σ rs).thrown with
      | some e => (.serverError e,
          (bwProvRun denv provision limit σ rs).started.map
            (fun i => ServiceCall.ensureCall
              (((groupBySheet denv rs).map Prod.fst).getD i "")))
      | none =>
        (.ok (bwState denv remote spid envId π rs).2.1
            (bwState denv remote spid envId π rs).2.2 rs.length
            (bwState denv remote spid envId π rs).1,
         (bwProvRun denv provision limit σ rs).started.map
            (fun i => ServiceCall.ensureCall
              (((groupBySheet denv rs).map Prod.fst).getD i "")) ++
         (bwOrdered denv π rs).filterMap (fun g =>
            if jsOrOpt spid envId = none then none
            else some (.appendCall g.1))) := by
  simp only [batchWrite, bwProvRun, bwOrdered, bwState, hval, hne,
    List.isEmpty_nil, Bool.not_true, if_false, ite_false]
  rw [if_neg Bool.false_ne_true]

/-- Claim C1: on a batch passing validation, whenever `batchWrite` answers
with the 200 payload its `results` array has exactly the batch length, the
entry at every position `j` carries index `j`, and every position `0..n-1`
is filled — for any grouping environment, any append outcomes, any
concurrency limit and any provisioning/completion schedule; moreover the 200
payload is always reached when provisioning succeeds. -/
theorem batchWrite_outcomes (denv : DateEnv) (remote : RemoteAppend)
    (provision : String → Except JsError Unit) (envId : Option String)
    (limit : Nat) (σ : Nat → List Nat) (π : List Nat) (rs : List Receipt)
    (spid : Option String) (hne : rs ≠ []) (hval : invalidReceipts rs = []) :
    (∀ s f t res,
      (batchWrite denv remote provision envId limit σ π
          (some ⟨some rs, spid⟩)).1 = .ok s f t res →
      t = rs.length ∧ res.length = rs.length ∧
      (∀ j x, res.get? j = some (some x) → x.index = j) ∧
      (∀ i, i < rs.length → ∃ x, res.get? i = some (some x) ∧ x.index = i)) ∧
    ((∀ nm, provision nm = .ok ()) →
      ∃ s f res, (batchWrite denv remote provision envId limit σ π
          (some ⟨some rs, spid⟩)).1 = .ok s f rs.length res) := by
  have hne0 : ¬ rs.length = 0 := fun h => hne (List.length_eq_zero.mp h)
  have hcases := batchWrite_valid_cases denv remote provision envId limit σ π
    rs spid hne0 hval
  constructor
  · intro s f t res h
    rw [hcases] at h
    rcases hth : (bwProvRun denv provision limit σ rs).thrown with _ | e
    · rw [hth] at h
      simp only [BWResponse.ok.injEq] at h
      obtain ⟨hs, hf, ht, hres⟩ := h
      subst hres
      refine ⟨ht.symm, ?_, ?_, ?_⟩
      · rw [bwState, ofold_length]
        exact List.length_replicate _ _
      · refine ofold_INV remote spid envId _ _ ?_
        intro j x hj
        have := List.eq_of_mem_replicate (List.get?_mem hj)
        cases this
      · intro i hi
        have hiRange : i ∈ List.range rs.length := List.mem_range.mpr hi
        have hperm : (bwOrdered denv π rs).Perm (groupBySheet denv rs) :=
          completionOrder_groups_perm π _
        have hIdxPerm : (allIdx (bwOrdered denv π rs)).Perm
            (List.range rs.length) := by
          have h1 : (allIdx (bwOrdered denv π rs)).Perm
              (allIdx (groupBySheet denv rs)) := by
            simp only [allIdx]
            exact (hperm.map (fun g => g.2.map Prod.fst)).flatten
          exact h1.trans (groupBySheet_idx_perm denv rs)
        have hNodup : (allIdx (bwOrdered denv π rs)).Nodup :=
          (hIdxPerm.nodup_iff).mpr (List.nodup_range _)
        have hiAll : i ∈ allIdx (bwOrdered denv π rs) :=
          (hIdxPerm.mem_iff).mpr hiRange
        obtain ⟨l, hl, hil⟩ := List.mem_flatten.mp hiAll
        obtain ⟨g, hg, rfl⟩ := List.mem_map.mp hl
        obtain ⟨e, he⟩ := groupOutcome_exists remote spid envId g i hil
        obtain ⟨pre, suf, hdecomp⟩ := List.append_of_mem hg
        rw [hdecomp, allIdx_append, allIdx_cons] at hNodup
        have h1 := List.nodup_append.mp hNodup
        have h2 := List.nodup_append.mp h1.2.1
        have hpre : i ∉ allIdx pre :=
          fun hiP => h1.2.2 hiP (List.mem_append_left _ hil)
        have hsuf : i ∉ allIdx suf := fun hiS => h2.2.2 hil hiS
        have hval2 := ofold_decomp remote spid envId pre suf g
          (List.replicate rs.length none, 0, 0) i e hpre hsuf h2.1 he
          (by rw [List.length_replicate]; exact hi)
        refine ⟨e, ?_, groupOutcome_index remote spid envId g (i, e) he⟩
        rw [bwState, hdecomp]
        exact hval2
    · rw [hth] at h
      cases h
  · intro hprov
    have hthr : (bwProvRun denv provision limit σ rs).thrown = none := by
      have := pclAux_allok
        (fun i => provision (((groupBySheet denv rs).map Prod.fst).getD i ""))
        limit σ (List.range ((groupBySheet denv rs).map Prod.fst).length) [] 0 0 []
        false (by intro p hp; cases hp) (fun i _ => hprov _)
      exact this.1
    rw [hcases, hthr]
    exact ⟨_, _, _, rfl⟩

theorem groupBySheet_mem_idx_lt (denv : DateEnv) (rs : List Receipt)
    (g : String × List (Nat × Receipt)) (hg : g ∈ groupBySheet denv rs)
    (p : Nat × Receipt) (hp : p ∈ g.2) : p.1 < rs.length := by
  refine groupBySheet_idx_lt denv rs p.1 ?_
  have : p.1 ∈ g.2.map Prod.fst := List.mem_map_of_mem Prod.fst hp
  exact List.mem_flatten.mpr ⟨g.2.map Prod.fst,
    List.mem_map_of_mem (fun g => g.2.map Prod.fst) hg, this⟩

/-- Value of the final results array at a position of one destination group,
whatever the completion order: exactly what that group's worker wrote. -/
theorem bwState_get (denv : DateEnv) (remote : RemoteAppend)
    (spid envId : Option String) (π : List Nat) (rs : List Receipt)
    (g : String × List (Nat × Receipt)) (hg : g ∈ groupBySheet denv rs)
    (i : Nat) (e : OutcomeEntry)
    (hmem : (i, e) ∈ groupOutcome remote spid envId g) (hi : i < rs.length) :
    (bwState denv remote spid envId π rs).1.get? i = some (some e) := by
  have hperm : (bwOrdered denv π rs).Perm (groupBySheet denv rs) :=
    completionOrder_groups_perm π _
  have hIdxPerm : (allIdx (bwOrdered denv π rs)).Perm (List.range rs.length) := by
    have h1 : (allIdx (bwOrdered denv π rs)).Perm
        (allIdx (groupBySheet denv rs)) := by
      simp only [allIdx]
      exact (hperm.map (fun g => g.2.map Prod.fst)).flatten
    exact h1.trans (groupBySheet_idx_perm denv rs)
  have hNodup : (allIdx (bwOrdered denv π rs)).Nodup :=
    (hIdxPerm.nodup_iff).mpr (List.nodup_range _)
  have hgo : g ∈ bwOrdered denv π rs := (hperm.mem_iff).mpr hg
  have hil : i ∈ g.2.map Prod.fst := by
    rw [← groupOutcome_fsts remote spid envId g]
    exact List.mem_map_of_mem Prod.fst hmem
  obtain ⟨pre, suf, hdecomp⟩ := List.append_of_mem hgo
  rw [hdecomp, allIdx_append, allIdx_cons] at hNodup
  have h1 := List.nodup_append.mp hNodup
  have h2 := List.nodup_append.mp h1.2.1
  have hpre : i ∉ allIdx pre := fun hiP => h1.2.2 hiP (List.mem_append_left _ hil)
  have hsuf : i ∉ allIdx suf := fun hiS => h2.2.2 hil hiS
  have hval2 := ofold_decomp remote spid envId pre suf g
    (List.replicate rs.length none, 0, 0) i e hpre hsuf h2.1 hmem
    (by rw [List.length_replicate]; exact hi)
  rw [bwState, hdecomp]
  exact hval2

/-- A failed group append marks exactly that group's members with the error
entry. -/
theorem groupOutcome_error (remote : RemoteAppend) (spid envId : Option String)
    (g : String × List (Nat × Receipt)) (e : JsError)
    (h : batchWriteToSheet remote spid envId g.1 (g.2.map Prod.snd) = .error e)
    (p : Nat × Receipt) (hp : p ∈ g.2) :
    (p.1, errEntry p.1 e) ∈ groupOutcome remote spid envId g := by
  unfold groupOutcome
  rw [h]
  exact List.mem_map_of_mem _ hp

/-- On a successful group append, every entry that group writes is a
success. -/
theorem groupOutcome_ok_success (remote : RemoteAppend)
    (spid envId : Option String) (g : String × List (Nat × Receipt))
    (ws : List WriteResult)
    (h : batchWriteToSheet remote spid envId g.1 (g.2.map Prod.snd) = .ok ws) :
    ∀ q ∈ groupOutcome remote spid envId g, q.2.success = true := by
  unfold groupOutcome
  rw [h]
  intro q hq
  obtain ⟨z, hz, rfl⟩ := List.mem_map.mp hq
  exact batchWriteToSheet_ok_success remote spid envId g.1 (g.2.map Prod.snd)
    ws h z.1 (List.of_mem_zip hz).1

theorem range_map_getD {α β : Type} (l : List α) (d : α) (f : α → β) {x : α}
    (hx : x ∈ l) :
    f x ∈ (List.range l.length).map (fun i => f (l.getD i d)) := by
  obtain ⟨⟨k, hk⟩, hget⟩ := List.mem_iff_get.mp hx
  refine List.mem_map.mpr ⟨k, List.mem_range.mpr hk, ?_⟩
  rw [List.getD_eq_get? , List.get?_eq_get hk]
  simpa using congrArg f hget

/-- Claim C2 (amended): when the distinct destinations number fewer than the
concurrency limit — the regime in which the provisioning phase completes —
the controller's response and its entire sheet-service call log do not
depend on the provisioning outcomes or schedule at all (a provisioning
failure aborts nothing, is silently swallowed, and yields no per-record
failure entry), `ensureSheetExists` is invoked for every destination and
every destination group's append is attempted whenever a target spreadsheet
id resolves, the 200 payload is always returned, a failed group append marks
exactly that group's members failed with the error's message, and members of
groups whose append succeeded are reported as successes. -/
theorem batchWrite_error_isolation (denv : DateEnv) (remote : RemoteAppend)
    (provision provision2 : String → Except JsError Unit) (envId : Option String)
    (limit : Nat) (σ σ2 : Nat → List Nat) (π : List Nat) (rs : List Receipt)
    (spid : Option String) (hne : rs ≠ []) (hval : invalidReceipts rs = [])
    (hlim : (groupBySheet denv rs).length < limit) :
    ((batchWrite denv remote provision envId limit σ π
        (some ⟨some rs, spid⟩)).1 =
     (batchWrite denv remote provision2 envId limit σ2 π
        (some ⟨some rs, spid⟩)).1) ∧
    (batchWrite denv remote provision envId limit σ π
        (some ⟨some rs, spid⟩) =
     batchWrite denv remote provision2 envId limit σ2 π
        (some ⟨some rs, spid⟩)) ∧
    (∀ nm ∈ (groupBySheet denv rs).map Prod.fst,
      ServiceCall.ensureCall nm ∈ (batchWrite denv remote provision envId
        limit σ π (some ⟨some rs, spid⟩)).2) ∧
    (∀ tid, jsOrOpt spid envId = some tid → ∀ g ∈ groupBySheet denv rs,
      ServiceCall.appendCall g.1 ∈ (batchWrite denv remote provision envId
        limit σ π (some ⟨some rs, spid⟩)).2) ∧
    (∃ s f res, (batchWrite denv remote provision envId limit σ π
        (some ⟨some rs, spid⟩)).1 = .ok s f rs.length res ∧
      ∀ g ∈ groupBySheet denv rs,
        (∀ e, batchWriteToSheet remote spid envId g.1 (g.2.map Prod.snd) =
            .error e →
          ∀ p ∈ g.2, res.get? p.1 = some (some (errEntry p.1 e))) ∧
        (∀ ws, batchWriteToSheet remote spid envId g.1 (g.2.map Prod.snd) =
            .ok ws →
          ∀ p ∈ g.2, ∃ x, res.get? p.1 = some (some x) ∧ x.success = true)) := by
  have hne0 : ¬ rs.length = 0 := fun h => hne (List.length_eq_zero.mp h)
  have hlen : ((groupBySheet denv rs).map Prod.fst).length < limit := by
    simpa using hlim
  have hthr : ∀ (provision' : String → Except JsError Unit) (σ' : Nat → List Nat),
      (bwProvRun denv provision' limit σ' rs).thrown = none := by
    intro provision' σ'
    exact (pclAux_small _ limit σ' (List.range _) [] 0 0 [] false (by simpa using hlen)).1
  have hstarted : ∀ (provision' : String → Except JsError Unit) (σ' : Nat → List Nat),
      (bwProvRun denv provision' limit σ' rs).started =
        List.range ((groupBySheet denv rs).map Prod.fst).length := by
    intro provision' σ'
    have h := (pclAux_small
      (fun i => provision' (((groupBySheet denv rs).map Prod.fst).getD i ""))
      limit σ' (List.range ((groupBySheet denv rs).map Prod.fst).length)
      [] 0 0 [] false (by simpa using hlen)).2
    simpa [bwProvRun, processWithConcurrencyLimit] using h
  have hfull : batchWrite denv remote provision envId limit σ π
        (some ⟨some rs, spid⟩) =
      batchWrite denv remote provision2 envId limit σ2 π
        (some ⟨some rs, spid⟩) := by
    rw [batchWrite_valid_cases denv remote provision envId limit σ π rs spid
      hne0 hval,
      batchWrite_valid_cases denv remote provision2 envId limit σ2 π rs spid
      hne0 hval,
      hthr provision σ, hthr provision2 σ2, hstarted provision σ,
      hstarted provision2 σ2]
  have hlog : (batchWrite denv remote provision envId limit σ π
        (some ⟨some rs, spid⟩)).2 =
      (List.range ((groupBySheet denv rs).map Prod.fst).length).map
        (fun i => ServiceCall.ensureCall
          (((groupBySheet denv rs).map Prod.fst).getD i "")) ++
      (bwOrdered denv π rs).filterMap (fun g =>
        if jsOrOpt spid envId = none then none
        else some (.appendCall g.1)) := by
    rw [batchWrite_valid_cases denv remote provision envId limit σ π rs spid
      hne0 hval, hthr provision σ, hstarted provision σ]
  refine ⟨?_, hfull, ?_, ?_, ?_⟩
  · exact congrArg Prod.fst hfull
  · intro nm hnm
    rw [hlog]
    exact List.mem_append_left _ (range_map_getD _ "" ServiceCall.ensureCall hnm)
  · intro tid htid g hg
    rw [hlog]
    refine List.mem_append_right _ (List.mem_filterMap.mpr ⟨g, ?_, ?_⟩)
    · exact ((completionOrder_groups_perm π (groupBySheet denv rs)).mem_iff).mpr hg
    · rw [htid]
      simp
  · refine ⟨(bwState denv remote spid envId π rs).2.1,
      (bwState denv remote spid envId π rs).2.2,
      (bwState denv remote spid envId π rs).1, ?_, ?_⟩
    · rw [batchWrite_valid_cases denv remote provision envId limit σ π rs spid
        hne0 hval, hthr provision σ]
    · intro g hg
      constructor
      · intro e herr p hp
        exact bwState_get denv remote spid envId π rs g hg p.1
          (errEntry p.1 e) (groupOutcome_error remote spid envId g e herr p hp)
          (groupBySheet_mem_idx_lt denv rs g hg p hp)
      · intro ws hok p hp
        have hil : p.1 ∈ g.2.map Prod.fst := List.mem_map_of_mem Prod.fst hp
        obtain ⟨e, he⟩ := groupOutcome_exists remote spid envId g p.1 hil
        refine ⟨e, ?_, groupOutcome_ok_success remote spid envId g ws hok
          (p.1, e) he⟩
        exact bwState_get denv remote spid envId π rs g hg p.1 e he
          (groupBySheet_mem_idx_lt denv rs g hg p hp)

theorem pairwise_lt_get? {l : List Nat} (h : l.Pairwise (· < ·)) :
    ∀ k a b, l.get? k = some a → l.get? (k + 1) = some b → a < b := by
  induction l with
  | nil => intro k a b ha _; cases ha
  | cons x xs ih =>
    intro k a b ha hb
    rcases List.pairwise_cons.mp h with ⟨hx, hxs⟩
    cases k with
    | zero =>
      cases ha
      exact hx b (List.get?_mem hb)
    | succ k =>
      exact ih hxs k a b ha hb

/-- Claim C6: on a destination group whose append call succeeded with
response `resp`, every member's results entry is a success whose row number
is the starting row extracted from the response plus the member's offset
within the group; and the group's original indices are strictly increasing,
so row numbers are strictly increasing and contiguous in original-index
order. -/
theorem batchWrite_row_numbers (denv : DateEnv) (remote : RemoteAppend)
    (provision : String → Except JsError Unit) (envId : Option String)
    (limit : Nat) (σ : Nat → List Nat) (π : List Nat) (rs : List Receipt)
    (spid : Option String) (hne : rs ≠ []) (hval : invalidReceipts rs = [])
    (g : String × List (Nat × Receipt)) (hg : g ∈ groupBySheet denv rs)
    (tid : String) (htid : jsOrOpt spid envId = some tid) (resp : AppendOk)
    (hok : remote g.1 (rowsOf (g.2.map Prod.snd)) = .ok resp) :
    ∀ s f t res, (batchWrite denv remote provision envId limit σ π
        (some ⟨some rs, spid⟩)).1 = .ok s f t res →
      (∀ k p, g.2.get? k = some p →
        res.get? p.1 = some (some (okEntry p.1 g.1
          ⟨true, startRowOf resp.updatedRange + k⟩))) ∧
      (∀ k p q, g.2.get? k = some p → g.2.get? (k + 1) = some q → p.1 < q.1) := by
  intro s f t res h
  have hne0 : ¬ rs.length = 0 := fun hh => hne (List.length_eq_zero.mp hh)
  have hbts := batchWriteToSheet_ok remote spid envId g.1 (g.2.map Prod.snd)
    tid resp htid hok
  have hres : res = (bwState denv remote spid envId π rs).1 := by
    rw [batchWrite_valid_cases denv remote provision envId limit σ π rs spid
      hne0 hval] at h
    rcases hth : (bwProvRun denv provision limit σ rs).thrown with _ | e
    · rw [hth] at h
      simp only [BWResponse.ok.injEq] at h
      exact h.2.2.2.symm
    · rw [hth] at h
      cases h
  subst hres
  constructor
  · intro k p hp
    obtain ⟨hk, -⟩ := List.get?_eq_some.mp hp
    have hws : ((List.range (g.2.map Prod.snd).length).map
        (fun k => (⟨true, startRowOf resp.updatedRange + k⟩ : WriteResult))).get? k
        = some ⟨true, startRowOf resp.updatedRange + k⟩ := by
      rw [List.get?_map, List.get?_range (by simpa using hk)]
      rfl
    have hzip : (((List.range (g.2.map Prod.snd).length).map
        (fun k => (⟨true, startRowOf resp.updatedRange + k⟩ : WriteResult))).zip
          g.2).get? k = some (⟨true, startRowOf resp.updatedRange + k⟩, p) := by
      rw [List.get?_zip_eq_some]
      exact ⟨hws, hp⟩
    have hmem : (p.1, okEntry p.1 g.1 ⟨true, startRowOf resp.updatedRange + k⟩)
        ∈ groupOutcome remote spid envId g := by
      unfold groupOutcome
      rw [hbts]
      exact List.mem_map_of_mem _ (List.get?_mem hzip)
    exact bwState_get denv remote spid envId π rs g hg p.1 _ hmem
      (groupBySheet_mem_idx_lt denv rs g hg p (List.get?_mem hp))
  · intro k p q hp hq
    have hsort := groupBySheet_sorted denv rs g hg
    refine pairwise_lt_get? hsort k p.1 q.1 ?_ ?_
    · rw [List.get?_map, hp]
      rfl
    · rw [List.get?_map, hq]
      rfl

/-! ## Validation path (claims C9 and C10) -/

/-- A receipt known to be at position `i` with missing fields is reported in
`invalidReceipts` under exactly that index with exactly those fields. -/
theorem mem_invalidReceipts (rs : List Receipt) (i : Nat) (r : Receipt)
    (hget : rs.get? i = some r) (hmf : missingFields r ≠ []) :
    (⟨i, missingFields r⟩ : InvalidReceipt) ∈ invalidReceipts rs := by
  refine List.mem_filterMap.mpr ⟨(i, r), List.mk_mem_enum_iff_get?.mpr hget, ?_⟩
  have hIE : (missingFields r).isEmpty = false := by
    cases hE : (missingFields r).isEmpty
    · rfl
    · exact absurd (List.isEmpty_iff.mp hE) hmf
  simp [hIE]

/-- A batch containing an invalid receipt is answered with the 400 payload
carrying the `invalidReceipts` report, before any service call. -/
theorem batchWrite_invalid_eq (denv : DateEnv) (remote : RemoteAppend)
    (provision : String → Except JsError Unit) (envId : Option String)
    (limit : Nat) (σ : Nat → List Nat) (π : List Nat) (rs : List Receipt)
    (spid : Option String) (hne : ¬ rs.length = 0)
    (hinv : invalidReceipts rs ≠ []) :
    batchWrite denv remote provision envId limit σ π (some ⟨some rs, spid⟩) =
      (.badRequest "Some receipts are missing required fields"
        (invalidReceipts rs), []) := by
  have hIE : (invalidReceipts rs).isEmpty = false := by
    cases hE : (invalidReceipts rs).isEmpty
    · rfl
    · exact absurd (List.isEmpty_iff.mp hE) hinv
  simp [batchWrite, hne, hIE]

/-- Claim C9: a missing body or non-array receipts field, an empty receipts
array, and any receipt with missing required fields are all rejected with a
400 response carrying the per-receipt report, with no sheet-service call
performed (so no remote call is made and no retry budget is consumed). -/
theorem batchWrite_validation (denv : DateEnv) (remote : RemoteAppend)
    (provision : String → Except JsError Unit) (envId : Option String)
    (limit : Nat) (σ : Nat → List Nat) (π : List Nat) :
    (batchWrite denv remote provision envId limit σ π none =
      (.badRequest "Request body must contain receipts array" [], [])) ∧
    (∀ spid, batchWrite denv remote provision envId limit σ π
        (some ⟨none, spid⟩) =
      (.badRequest "Request body must contain receipts array" [], [])) ∧
    (∀ spid, batchWrite denv remote provision envId limit σ π
        (some ⟨some [], spid⟩) =
      (.badRequest "Receipts array cannot be empty" [], [])) ∧
    (∀ rs spid, ¬ rs.length = 0 → invalidReceipts rs ≠ [] →
      batchWrite denv remote provision envId limit σ π (some ⟨some rs, spid⟩) =
        (.badRequest "Some receipts are missing required fields"
          (invalidReceipts rs), [])) ∧
    (∀ rs i r, rs.get? i = some r → missingFields r ≠ [] →
      (⟨i, missingFields r⟩ : InvalidReceipt) ∈ invalidReceipts rs) ∧
    (∀ msg inv, statusOf (.badRequest msg inv) = some 400) := by
  refine ⟨rfl, fun spid => rfl, fun spid => rfl, ?_, mem_invalidReceipts,
    fun msg inv => rfl⟩
  intro rs spid hne hinv
  exact batchWrite_invalid_eq denv remote provision envId limit σ π rs spid
    hne hinv

/-- A receipt whose required fields are present but falsy: empty store name
and zero tax-included amount. -/
def cBad : Receipt := ⟨.str "2025-01-05", .str "", .num 0, .undefined⟩

/-- Witness instantiating `batchWrite_validation`: a receipt with an empty
store name and amount `0` is rejected with the per-receipt report, and the
empty batch is rejected, both with no service call. -/
theorem batchWrite_validation_witness :
    batchWrite cDateEnv (fun name _ => .ok ⟨some (name ++ "!A2:D2")⟩)
        (fun _ => .ok ()) (some "SS") 5 (fun _ => []) []
        (some ⟨some [cBad], none⟩) =
      (.badRequest "Some receipts are missing required fields"
        [⟨0, ["storeName", "amountInclTax"]⟩], []) ∧
    batchWrite cDateEnv (fun name _ => .ok ⟨some (name ++ "!A2:D2")⟩)
        (fun _ => .ok ()) (some "SS") 5 (fun _ => []) []
        (some ⟨some [], none⟩) =
      (.badRequest "Receipts array cannot be empty" [], []) := by
  obtain ⟨-, -, h3, h4, -, -⟩ := batchWrite_validation cDateEnv
    (fun name _ => .ok ⟨some (name ++ "!A2:D2")⟩) (fun _ => .ok ())
    (some "SS") 5 (fun _ => []) []
  constructor
  · rw [h4 [cBad] none (by decide) (by decide)]
    decide
  · exact h3 none

/-- Claim C10: a receipt whose required field is present but falsy — for a
store name equal to the empty string or a tax-included amount equal to `0` —
is classified as missing that field (the validation is a falsy check, not a
presence check) and the whole request is rejected with the 400 report. -/
theorem batchWrite_falsy_field_rejected (denv : DateEnv) (remote : RemoteAppend)
    (provision : String → Except JsError Unit) (envId : Option String)
    (limit : Nat) (σ : Nat → List Nat) (π : List Nat) (rs : List Receipt)
    (spid : Option String) (i : Nat) (r : Receipt)
    (hget : rs.get? i = some r)
    (hfalsy : r.storeName = .str "" ∨ r.amountInclTax = .num 0) :
    (∃ entry ∈ invalidReceipts rs, entry.index = i ∧
      (r.storeName = .str "" → "storeName" ∈ entry.missing) ∧
      (r.amountInclTax = .num 0 → "amountInclTax" ∈ entry.missing)) ∧
    (batchWrite denv remote provision envId limit σ π (some ⟨some rs, spid⟩)).1 =
      .badRequest "Some receipts are missing required fields"
        (invalidReceipts rs) ∧
    statusOf (batchWrite denv remote provision envId limit σ π
      (some ⟨some rs, spid⟩)).1 = some 400 := by
  have hstore : r.storeName = .str "" → "storeName" ∈ missingFields r := by
    intro h
    refine List.mem_filter.mpr ⟨by simp [requiredFields], ?_⟩
    simp [Receipt.getField, h, truthy]
  have hamount : r.amountInclTax = .num 0 → "amountInclTax" ∈ missingFields r := by
    intro h
    refine List.mem_filter.mpr ⟨by simp [requiredFields], ?_⟩
    simp [Receipt.getField, h, truthy]
  have hmf : missingFields r ≠ [] := by
    rcases hfalsy with h | h
    · exact List.ne_nil_of_mem (hstore h)
    · exact List.ne_nil_of_mem (hamount h)
  have hne : ¬ rs.length = 0 := by
    intro h0
    rw [List.length_eq_zero.mp h0] at hget
    cases hget
  have hinv : invalidReceipts rs ≠ [] :=
    List.ne_nil_of_mem (mem_invalidReceipts rs i r hget hmf)
  have heq := batchWrite_invalid_eq denv remote provision envId limit σ π rs
    spid hne hinv
  refine ⟨⟨⟨i, missingFields r⟩, mem_invalidReceipts rs i r hget hmf, rfl,
    hstore, hamount⟩, ?_, ?_⟩
  · rw [heq]
  · rw [heq]
    rfl

/-- Witness instantiating `batchWrite_falsy_field_rejected` on a receipt with
`storeName = ""` and `amountInclTax = 0`. -/
theorem batchWrite_falsy_field_rejected_witness :
    (∃ entry ∈ invalidReceipts [cBad], entry.index = 0 ∧
      "storeName" ∈ entry.missing ∧ "amountInclTax" ∈ entry.missing) ∧
    (batchWrite cDateEnv (fun name _ => .ok ⟨some (name ++ "!A2:D2")⟩)
        (fun _ => .ok ()) (some "SS") 5 (fun _ => []) []
        (some ⟨some [cBad], none⟩)).1 =
      .badRequest "Some receipts are missing required fields"
        (invalidReceipts [cBad]) := by
  obtain ⟨⟨entry, hmem, hidx, hs, ha⟩, heq, -⟩ :=
    batchWrite_falsy_field_rejected cDateEnv
      (fun name _ => .ok ⟨some (name ++ "!A2:D2")⟩) (fun _ => .ok ())
      (some "SS") 5 (fun _ => []) [] [cBad] none 0 cBad rfl (Or.inl rfl)
  exact ⟨⟨entry, hmem, hidx, hs rfl, ha rfl⟩, heq⟩

/-! ## Concrete scenarios for the orchestrator claims -/

/-- A January receipt. -/
def cR0 : Receipt := ⟨.str "2025-01-05", .str "A", .num 100, .undefined⟩

/-- A February receipt. -/
def cR1 : Receipt := ⟨.str "2025-02-10", .str "B", .num 200, .undefined⟩

/-- A remote append endpoint that always succeeds, reporting row 2. -/
def cRemote : RemoteAppend := fun name _ => .ok ⟨some (name ++ "!A2:D2")⟩

/-- A remote append endpoint failing exactly for the February sheet. -/
def cRemoteFail : RemoteAppend := fun name _ =>
  if name = "2025_02" then .error (mkErr "append boom")
  else .ok ⟨some (name ++ "!A2:D2")⟩

/-- Witness instantiating `batchWrite_outcomes` on a two-receipt batch
spanning two destinations: the 200 payload is reached with `total = 2`. -/
theorem batchWrite_outcomes_witness :
    ([cR0, cR1] : List Receipt) ≠ [] ∧
    ∃ s f res, (batchWrite cDateEnv cRemote (fun _ => .ok ()) (some "SS") 5
      (fun _ => []) [] (some ⟨some [cR0, cR1], none⟩)).1 =
        .ok s f ([cR0, cR1] : List Receipt).length res := by
  refine ⟨by decide, ?_⟩
  exact (batchWrite_outcomes cDateEnv cRemote (fun _ => .ok ()) (some "SS") 5
    (fun _ => []) [] [cR0, cR1] none (by decide) (by decide)).2 (fun _ => rfl)

/-- Counterexample to claim C2 as stated: with one valid receipt whose
destination's provisioning fails (and a concurrency limit above the number
of destinations), the response is still the 200 payload whose only entry is
a success carrying no error — the provisioning error was silently swallowed
and converted into no per-record failure entry, and the group's append was
still attempted. -/
theorem batchWrite_provision_error_swallowed :
    (batchWrite cDateEnv cRemote (fun _ => .error (mkErr "prov boom"))
      (some "SS") 5 (fun _ => []) [] (some ⟨some [cR0], none⟩)).1 =
      .ok 1 0 1 [some ⟨0, true, some "2025_01", some 2, none⟩] := by
  rfl

/-- Witness instantiating `batchWrite_error_isolation`: two destination
groups, the February append mocked to fail, every provisioning call mocked
to fail — the batch still answers 200, the January record succeeds, the
February record carries exactly the append error's message, and despite all
provisioning failing both destinations were provisioned and both appends
attempted. -/
theorem batchWrite_error_isolation_witness :
    (∃ s f res, (batchWrite cDateEnv cRemoteFail
        (fun _ => .error (mkErr "prov boom")) (some "SS") 5 (fun _ => []) []
        (some ⟨some [cR0, cR1], none⟩)).1 = .ok s f 2 res ∧
      (∃ x, res.get? 0 = some (some x) ∧ x.success = true) ∧
      res.get? 1 = some (some (errEntry 1 (mkErr "append boom")))) ∧
    ServiceCall.ensureCall "2025_02" ∈ (batchWrite cDateEnv cRemoteFail
        (fun _ => .error (mkErr "prov boom")) (some "SS") 5 (fun _ => []) []
        (some ⟨some [cR0, cR1], none⟩)).2 ∧
    ServiceCall.appendCall "2025_02" ∈ (batchWrite cDateEnv cRemoteFail
        (fun _ => .error (mkErr "prov boom")) (some "SS") 5 (fun _ => []) []
        (some ⟨some [cR0, cR1], none⟩)).2 := by
  obtain ⟨-, -, hens, happ, s, f, res, heq, hiso⟩ := batchWrite_error_isolation
    cDateEnv cRemoteFail (fun _ => .error (mkErr "prov boom")) (fun _ => .ok ())
    (some "SS") 5 (fun _ => []) (fun _ => []) [] [cR0, cR1] none
    (by decide) (by decide) (by decide)
  refine ⟨⟨s, f, res, heq, ?_, ?_⟩, hens "2025_02" (by decide),
    happ "SS" (by decide) ("2025_02", [(1, cR1)]) (by decide)⟩
  · have hg0 : ("2025_01", [(0, cR0)]) ∈ groupBySheet cDateEnv [cR0, cR1] := by
      decide
    exact (hiso _ hg0).2 [⟨true, 2⟩] (by decide) (0, cR0) (by decide)
  · have hg1 : ("2025_02", [(1, cR1)]) ∈ groupBySheet cDateEnv [cR0, cR1] := by
      decide
    exact (hiso _ hg1).1 (mkErr "append boom") (by decide) (1, cR1) (by decide)

/-- Witness instantiating `batchWrite_row_numbers` on a single-receipt group
whose append reports starting row 2: the record's entry is a success at row
`2 + 0`. -/
theorem batchWrite_row_numbers_witness :
    (batchWrite cDateEnv cRemote (fun _ => .ok ()) (some "SS") 5 (fun _ => [])
        [] (some ⟨some [cR0], none⟩)).1 =
      .ok 1 0 1 [some ⟨0, true, some "2025_01", some 2, none⟩] ∧
    ([some (⟨0, true, some "2025_01", some 2, none⟩ : OutcomeEntry)] :
        List (Option OutcomeEntry)).get? 0 =
      some (some (okEntry 0 "2025_01"
        ⟨true, startRowOf (some "2025_01!A2:D2") + 0⟩)) := by
  have hbw : (batchWrite cDateEnv cRemote (fun _ => .ok ()) (some "SS") 5
      (fun _ => []) [] (some ⟨some [cR0], none⟩)).1 =
      .ok 1 0 1 [some ⟨0, true, some "2025_01", some 2, none⟩] := by rfl
  have h := (batchWrite_row_numbers cDateEnv cRemote (fun _ => .ok ())
    (some "SS") 5 (fun _ => []) [] [cR0] none (by decide) (by decide)
    ("2025_01", [(0, cR0)]) (by decide) "SS" rfl ⟨some "2025_01!A2:D2"⟩
    (by decide) 1 0 1 [some ⟨0, true, some "2025_01", some 2, none⟩] hbw).1
    0 (0, cR0) rfl
  exact ⟨hbw, h⟩
